import Mathlib

/-!
# OpenQL Central Controller backend (`ql/arch/cc/eqasm_backend_cc.h`)

A shallow embedding of class `ql::arch::eqasm_backend_cc` and a verification of
its decomposition pass, classical-instruction encoder, control-flow frame
generator and bundle code generator.

Conventions of the embedding

* Text (`std::string`, `std::stringstream`, `const char *`) is a Lean `String`,
  one `Char` per C++ `char`; `strlen` and `size()` are `String.length`. C strings
  are taken to hold no embedded NUL.
* `size_t` values are natural numbers; where the source does arithmetic on them
  the result is reduced modulo `2 ^ 64`.
* `FATAL(...)` and thrown `ql::exception`s are `Except.error (Err.fatal msg)`;
  an out-of-range element access, which C++ leaves undefined, is
  `Except.error (Err.undefined what)`.
* A stream that is written to is passed in and returned.
-/

namespace ql
namespace arch

/-! ## Data model -/

/-- Outcome of a code path that does not return normally. -/
inductive Err where
  /-- `FATAL(msg)`: the message is logged and thrown as a `ql::exception`. -/
  | fatal (msg : String)
  /-- Element access outside a container: undefined behaviour in C++. -/
  | undefined (what : String)
deriving DecidableEq, Repr

deriving instance DecidableEq for Except

/-- Values of `ql::gate_type_t` (declared in `ql/gate.h`): the three the backend
tests for by name, and the kinds of gate that it treats alike. -/
inductive gate_type_t where
  | __custom_gate__
  | __nop_gate__
  | __classical_gate__
  | __wait_gate__
  | __measure_gate__
  | __other_gate__
deriving DecidableEq, Repr

/-- An instruction, `ql::gate` (declared in `ql/gate.h`), with the members the
backend reads: `name`, the operand vector `operands`, the classical register
operands `creg_operands`, the result of the virtual `type()`, and the immediate
value that classical load-immediate instructions carry. -/
structure gate where
  name : String
  operands : List Nat
  creg_operands : List Nat
  type : gate_type_t
  imm_value : Int
deriving DecidableEq, Repr

/-- A scheduled bundle, `ql::ir::bundle_t` (declared in `ql/ir.h`): a start cycle,
a duration and the parallel sections, each a list of instructions. -/
structure bundle_t where
  start_cycle : Nat
  duration_in_cycles : Nat
  parallel_sections : List (List gate)
deriving DecidableEq, Repr

/-- Modelled from the spec: the platform metadata lookup, class
`ql::quantum_platform` of `ql/platform.h`. `instruction_settings name` is the
`"type"` of the entry that `instruction_settings` holds under `name`, `none`
when there is no entry; `get_instruction_name` is the resolved platform
instruction name; `hardware_settings key` is a scalar setting, `none` when the
key is missing. -/
structure quantum_platform where
  instruction_settings : String → Option String
  get_instruction_name : String → String
  hardware_settings : String → Option Nat

/-- Control-flow role of a kernel, `ql::kernel_type_t` (declared in
`ql/kernel.h`). -/
inductive kernel_type_t where
  | STATIC
  | FOR_START
  | FOR_END
  | DO_WHILE_START
  | DO_WHILE_END
  | IF_START
  | ELSE_START
deriving DecidableEq, Repr

/-- Modelled from the spec: the branch condition of a kernel, `ql::operation`,
an operand pair (the `id`s of `operands[0]` and `operands[1]`) and the name of
the comparison operator. -/
structure operation where
  op0 : Nat
  op1 : Nat
  operation_name : String
deriving DecidableEq, Repr

/-- Kernel descriptor, `ql::quantum_kernel` (declared in `ql/kernel.h`), with the
members the backend reads. -/
structure quantum_kernel where
  name : String
  type : kernel_type_t
  iterations : Nat
  br_condition : operation
  c : List gate
  creg_count : Nat
deriving DecidableEq, Repr

/-- Member `verbose` of the backend: initialised to `true` and never assigned. -/
def verbose : Bool := true

/-! ## Text helpers -/

/-- Line end written by `std::endl`. -/
def endl : String := "\n"

/-- A run of `n` fill characters, the space. -/
def spaces (n : Nat) : String := String.mk (List.replicate n ' ')

/-- Effect of `ss << std::left << std::setw(w) << s`: `s` followed by as many
spaces as it is shorter than `w`; a longer `s` is written whole. -/
def setw (w : Nat) (s : String) : String :=
  s ++ spaces (w - s.length)

/-- Modelled from the spec: `str::lower_case` of `ql/str.h`, the case
normalisation of a name (`tolower` on every character, C locale). -/
def lower_case (s : String) : String :=
  String.mk (s.data.map Char.toLower)

/-- Decimal text of a `size_t`, as `operator<<` writes it. -/
def dec (n : Nat) : String := Nat.repr n

/-- Two-to-three argument `emit` (lines 134-146): appends to `ss` an optional
label or comment and an optional instruction. -/
def emit (ss : String) (labelOrComment : String) (instr : String) : String :=
  if labelOrComment.length = 0 then
    ss ++ "        " ++ instr ++ endl
  else if labelOrComment.length < 8 then
    ss ++ setw 8 labelOrComment ++ instr ++ endl
  else if instr.length = 0 then
    ss ++ labelOrComment ++ endl
  else
    ss ++ labelOrComment ++ endl ++ "        " ++ instr ++ endl

/-- Four-to-five argument `emit` (lines 150-154): label, instruction, operands
and comment in columns of 8, 8 and 16 characters. -/
def emit_ops (ss : String) (label : String) (instr : String) (ops : String)
    (comment : String) : String :=
  ss ++ setw 8 label ++ setw 8 instr ++ setw 16 ops ++ comment ++ endl

/-! ## Classical encoder -/

/-- The opcodes that `classical_instruction2cccode` accepts (lines 360-362). -/
def classical_opcodes : List String :=
  ["add", "sub", "and", "or", "not", "xor", "ldi", "nop", "cmp"]

/-- The operand loop of `classical_instruction2cccode` (lines 366-372): every
operand is written as `" r"` and its number, followed by a comma unless it is
the last one. -/
def classical_operands (ssclassical : String) : List Nat → String
  | [] => ssclassical
  | [op] => ssclassical ++ " r" ++ dec op
  | op :: rest => classical_operands (ssclassical ++ " r" ++ dec op ++ ",") rest

/-- Function `classical_instruction2cccode` (lines 353-396). -/
def classical_instruction2cccode (classical_ins : gate) : Except Err String :=
  let iname := classical_ins.name
  let iopers := classical_ins.operands
  let iopers_count := iopers.length
  if iname = "add" ∨ iname = "sub" ∨
     iname = "and" ∨ iname = "or" ∨ iname = "not" ∨ iname = "xor" ∨
     iname = "ldi" ∨ iname = "nop" ∨ iname = "cmp" then
    .ok (classical_operands ("" ++ iname) iopers)
  else
    .error (.fatal ("Unknown classical operation'" ++ iname ++ "' with'"
      ++ toString iopers_count ++ "' operands!"))

/-! ## Control-flow frames -/

/-- Whitespace as `operator>>` skips it: `isspace` in the C locale. -/
def isspace (c : Char) : Bool :=
  c = ' ' || c = '\t' || c = '\n' || c = '\x0b' || c = '\x0c' || c = '\r'

/-- The tokens that `std::istream_iterator<std::string>` reads from a stream
holding `cs`: the maximal runs of characters that are not whitespace, in order.
`cur` is the token being read. -/
def read_tokens : List Char → List Char → List String
  | [], cur => if cur = [] then [] else [String.mk cur]
  | c :: cs, cur =>
    if isspace c then
      if cur = [] then read_tokens cs [] else String.mk cur :: read_tokens cs []
    else read_tokens cs (cur ++ [c])

/-- Function `kernelLabel` (lines 403-411): underscores become spaces, the name
is split into tokens, and `tokens[0]` is returned. With no token the access is
outside the vector. -/
def kernelLabel (k : quantum_kernel) : Except Err String :=
  let kname := k.name.data.map (fun c => if c = '_' then ' ' else c)
  match read_tokens kname [] with
  | [] => .error (.undefined "tokens[0] of an empty vector")
  | token :: _ => .ok token

/-- The comment that the frame of a loop carries on its instruction line. -/
def loop_counter_comment : String := "# R63 is the 'for loop counter'"

/-- Function `get_prologue` (lines 415-461). -/
def get_prologue (k : quantum_kernel) : Except Err String :=
  let ss := ""
  match k.type with
  | .IF_START =>
    let op0 := k.br_condition.op0
    let op1 := k.br_condition.op1
    let opName := k.br_condition.operation_name
    .ok (if verbose then
      ss ++ "# IF_START(R" ++ dec op0 ++ " " ++ opName ++ " R" ++ dec op1 ++ ")" ++ endl
    else ss)
  | .ELSE_START =>
    let op0 := k.br_condition.op0
    let op1 := k.br_condition.op1
    let opName := k.br_condition.operation_name
    .ok (if verbose then
      ss ++ "# ELSE_START(R" ++ dec op0 ++ " " ++ opName ++ " R" ++ dec op1 ++ ")" ++ endl
    else ss)
  | .FOR_START =>
    match kernelLabel k with
    | .error e => .error e
    | .ok label =>
      let ss := if verbose then ss ++ "# FOR_START(" ++ dec k.iterations ++ ")" ++ endl else ss
      .ok (emit_ops ss (label ++ ":") "move" (dec k.iterations ++ ",R63") loop_counter_comment)
  | .DO_WHILE_START =>
    match kernelLabel k with
    | .error e => .error e
    | .ok _ => .ok (if verbose then ss ++ "# DO_WHILE_START" ++ endl else ss)
  | _ => .ok ss

/-- Function `get_epilogue` (lines 465-493). -/
def get_epilogue (k : quantum_kernel) : Except Err String :=
  let ss := ""
  match k.type with
  | .FOR_END =>
    match kernelLabel k with
    | .error e => .error e
    | .ok label =>
      let ss := if verbose then emit ss "# FOR_END" "" else ss
      .ok (emit_ops ss "" "loop" ("R63,@" ++ label) loop_counter_comment)
  | .DO_WHILE_END =>
    let op0 := k.br_condition.op0
    let op1 := k.br_condition.op1
    let opName := k.br_condition.operation_name
    .ok (if verbose then
      ss ++ "# DO_WHILE_END(R" ++ dec op0 ++ " " ++ opName ++ " R" ++ dec op1 ++ ")" ++ endl
    else ss)
  | _ => .ok ss

/-! ## Decomposer -/

/-- Modelled from the spec: the constructor of `ql::arch::classical_cc` (declared
with the CC-light backend), which builds the synthesized classical instruction:
a classical gate with the lower-cased operation name and the given operand
list. -/
def classical_cc (operation : String) (opers : List Nat) (ivalue : Int) : gate :=
  { name := lower_case operation, operands := opers, creg_operands := [],
    type := .__classical_gate__, imm_value := ivalue }

/-- Body of the loop of `decompose_instructions` (lines 235-333) for one
instruction `ins` of the circuit: the instructions that it appends to
`decomp_ckt`. The name of `ins` is lower-cased in place first, so the gate that
is passed on carries the lower-cased name. -/
def decompose_instruction (decomp_ckt : List gate) (ins : gate)
    (platform : quantum_platform) : Except Err (List gate) :=
  let iname := lower_case ins.name
  let ins := { ins with name := iname }
  let iopers := ins.operands
  let iopers_count := iopers.length
  let itype := ins.type
  if itype = .__classical_gate__ then
    .ok decomp_ckt
  else if iname = "wait" then
    .ok (decomp_ckt ++ [ins])
  else
    match platform.instruction_settings iname with
    | none =>
      .error (.fatal ("instruction settings not found for '" ++ iname ++ "' with'"
        ++ toString iopers_count ++ "' operands!"))
    | some operation_type =>
      let is_measure := operation_type = "readout"
      if is_measure then
        match iopers with
        | [] => .error (.undefined "iopers[0] of an empty vector")
        | qop :: _ =>
          let decomp_ckt := decomp_ckt ++ [ins]
          if itype = .__custom_gate__ then
            match ins.creg_operands with
            | cop :: _ => .ok (decomp_ckt ++ [classical_cc "fmr" [cop, qop] 0])
            | [] => .ok decomp_ckt
          else
            .error (.fatal ("Unknown decomposition of measure/readout operation '"
              ++ iname ++ "'!"))
      else
        .ok (decomp_ckt ++ [ins])

/-- Function `decompose_instructions` (lines 230-347): the circuit `ckt` is
walked in order and `decomp_ckt` is extended; the extended `decomp_ckt` is the
result. -/
def decompose_instructions : List gate → List gate → quantum_platform →
    Except Err (List gate)
  | [], decomp_ckt, _ => .ok decomp_ckt
  | ins :: ckt, decomp_ckt, platform =>
    match decompose_instruction decomp_ckt ins platform with
    | .error e => .error e
    | .ok decomp_ckt => decompose_instructions ckt decomp_ckt platform

/-! ## Code generator -/

/-- Body of the loop over the instructions of a quantum section (lines
537-571): what one instruction appends to `ssinst`. -/
def instruction2cccode (platform : quantum_platform) (ssinst : String) (instr : gate) :
    Except Err String :=
  let itype := instr.type
  let iname := instr.name
  let instr_name := platform.get_instruction_name iname
  if itype = .__nop_gate__ then
    .ok (ssinst ++ instr_name)
  else if itype = .__classical_gate__ then
    .error (.fatal "Inconsistency detected: classical gate found after first section")
  else
    match instr.operands with
    | [op0] =>
      .ok (if verbose then emit ssinst ("# " ++ instr_name ++ " " ++ dec op0) "" else ssinst)
    | [op0, op1] =>
      .ok (if verbose then
        emit ssinst ("# " ++ instr_name ++ " " ++ dec op0 ++ "," ++ dec op1) ""
      else ssinst)
    | _ => .error (.fatal "Only 1 and 2 operand instructions are supported !")

/-- The loop over the instructions of a quantum section (line 536). -/
def section_instructions2cccode (platform : quantum_platform) :
    List gate → String → Except Err String
  | [], ssinst => .ok ssinst
  | instr :: rest, ssinst =>
    match instruction2cccode platform ssinst instr with
    | .error e => .error e
    | .ok ssinst => section_instructions2cccode platform rest ssinst

/-- Body of the loop over the parallel sections of a bundle (lines 522-598):
what one section appends to `ssinst`. The flag `classical_bundle` is set here
and read nowhere. -/
def section2cccode (platform : quantum_platform) (ssinst : String) (sect : List gate) :
    Except Err String :=
  match sect with
  | [] => .error (.undefined "*section->begin() of an empty section")
  | firstInstr :: _ =>
    if firstInstr.type = .__classical_gate__ then
      if sect.length ≠ 1 then
        .error (.fatal "Inconsistency detected: classical gate with parallel sections")
      else
        match classical_instruction2cccode firstInstr with
        | .error e => .error e
        | .ok code => .ok (ssinst ++ code)
    else
      section_instructions2cccode platform sect ssinst

/-- The loop over the parallel sections of a bundle (line 521). -/
def parallel_sections2cccode (platform : quantum_platform) :
    List (List gate) → String → Except Err String
  | [], ssinst => .ok ssinst
  | sect :: rest, ssinst =>
    match section2cccode platform ssinst sect with
    | .error e => .error e
    | .ok ssinst => parallel_sections2cccode platform rest ssinst

/-- The variables of `bundles2cccode` that live across bundles: the output
stream `ssbundles` and `curr_cycle`. `deltas` records the value that the local
`delta` took in each iteration so far, oldest first; the code never reads it. -/
structure codegen_state where
  ssbundles : String
  curr_cycle : Nat
  deltas : List Nat
deriving DecidableEq, Repr

/-- Body of the loop over the bundles (lines 506-634). -/
def bundle2cccode (platform : quantum_platform) (st : codegen_state) (bundle : bundle_t) :
    Except Err codegen_state :=
  let delta := (bundle.start_cycle + 2 ^ 64 - st.curr_cycle) % 2 ^ 64
  let sspre := ""
  match parallel_sections2cccode platform bundle.parallel_sections "" with
  | .error e => .error e
  | .ok ssinst =>
    .ok { ssbundles := st.ssbundles ++ sspre ++ ssinst ++ "\n",
          curr_cycle := (st.curr_cycle + delta) % 2 ^ 64,
          deltas := st.deltas ++ [delta] }

/-- The loop over the bundles (line 504). -/
def bundles_loop (platform : quantum_platform) :
    List bundle_t → codegen_state → Except Err codegen_state
  | [], st => .ok st
  | bundle :: rest, st =>
    match bundle2cccode platform st bundle with
    | .error e => .error e
    | .ok st => bundles_loop platform rest st

/-- State of `bundles2cccode` before the first bundle (lines 501-502). -/
def codegen_init : codegen_state :=
  { ssbundles := "", curr_cycle := 0, deltas := [] }

/-- Function `bundles2cccode` (lines 497-646): the text of `ssbundles` after the
last bundle. -/
def bundles2cccode (bundles : List bundle_t) (platform : quantum_platform) :
    Except Err String :=
  match bundles_loop platform bundles codegen_init with
  | .error e => .error e
  | .ok st => .ok st.ssbundles


/-! ## Program compilation -/

/-- Function `load_backend_settings` (lines 157-177): reads the key `test` of the
backend settings for a debug message; a JSON exception is caught and dropped, so
nothing is stored and nothing fails. -/
def load_backend_settings (_platform : quantum_platform) : Unit := ()

/-- Message of the exception that `load_hw_settings` throws for a setting it
cannot read (lines 213-217); the text of the JSON exception that the source
appends to it is left out. -/
def hw_settings_error (name : String) : String :=
  "[x] error : ql::eqasm_compiler::compile() : error while reading hardware settings : parameter '"
    ++ name ++ "'\n\t"

/-- Function `load_hw_settings` (lines 181-219): reads `qubit_number` and
`cycle_time`, in this order, and returns them. -/
def load_hw_settings (platform : quantum_platform) : Except Err (Nat × Nat) :=
  match platform.hardware_settings "qubit_number" with
  | none => .error (.fatal (hw_settings_error "qubit_number"))
  | some qubit_number =>
    match platform.hardware_settings "cycle_time" with
    | none => .error (.fatal (hw_settings_error "cycle_time"))
    | some cycle_time => .ok (qubit_number, cycle_time)

/-- The resource-constrained scheduler `cc_light_schedule_rc` (declared with the
CC-light backend), an external collaborator: a given function from the
decomposed circuit, the platform, the qubit count and the classical register
count to the bundles. -/
abbrev scheduler := List gate → quantum_platform → Nat → Nat → List bundle_t

/-- Body of the loop over the kernels in `compile` (lines 62-86): what one kernel
appends to `cccode`. -/
def kernel2cccode (cc_light_schedule_rc : scheduler) (platform : quantum_platform)
    (qubit_number : Nat) (cccode : String) (kernel : quantum_kernel) : Except Err String :=
  let cccode := if verbose then cccode ++ "# Kernel:  " ++ kernel.name ++ endl else cccode
  match get_prologue kernel with
  | .error e => .error e
  | .ok prologue =>
    let cccode := cccode ++ prologue
    let ckt := kernel.c
    if ckt ≠ [] then
      let creg_count := kernel.creg_count
      match decompose_instructions ckt [] platform with
      | .error e => .error e
      | .ok decomp_ckt =>
        let bundles := cc_light_schedule_rc decomp_ckt platform qubit_number creg_count
        match bundles2cccode bundles platform with
        | .error e => .error e
        | .ok code =>
          let cccode := cccode ++ code
          match get_epilogue kernel with
          | .error e => .error e
          | .ok epilogue => .ok (cccode ++ epilogue)
    else
      match get_epilogue kernel with
      | .error e => .error e
      | .ok epilogue => .ok (cccode ++ epilogue)

/-- The loop over the kernels in `compile` (line 61). -/
def kernels2cccode (cc_light_schedule_rc : scheduler) (platform : quantum_platform)
    (qubit_number : Nat) : List quantum_kernel → String → Except Err String
  | [], cccode => .ok cccode
  | kernel :: rest, cccode =>
    match kernel2cccode cc_light_schedule_rc platform qubit_number cccode kernel with
    | .error e => .error e
    | .ok cccode => kernels2cccode cc_light_schedule_rc platform qubit_number rest cccode

/-- Function `compile` for a list of kernels (lines 43-97): the result is the
text of `cccode` that the source hands to `write_file`. -/
def compile (cc_light_schedule_rc : scheduler) (prog_name : String)
    (kernels : List quantum_kernel) (platform : quantum_platform) : Except Err String :=
  if kernels.length = 0 then
    .error (.fatal "Trying to compile empty kernel")
  else
    let _ := load_backend_settings platform
    match load_hw_settings platform with
    | .error e => .error e
    | .ok (qubit_number, _) =>
      let cccode := "# Program: '" ++ prog_name ++ "'" ++ endl
        ++ "# Note:    generated by OpenQL Central Controller backend" ++ endl
        ++ "#" ++ endl
      match kernels2cccode cc_light_schedule_rc platform qubit_number kernels cccode with
      | .error e => .error e
      | .ok cccode => .ok (emit cccode "" "stop")

/-! ## Reference texts used in the statements -/

/-- The text that the encoder writes for an operand list: nothing for the empty
list, otherwise a space and the operands, each as `r` and its number, joined by
a comma and a space. -/
def operands_text : List Nat → String
  | [] => ""
  | op :: rest => " " ++ ", ".intercalate ((op :: rest).map fun o => "r" ++ dec o)

/-- A comment on a line of its own, as the code generator writes it: the
comment, spaces up to 8 characters when it is shorter, and a line break. -/
def comment_line (comment : String) : String :=
  comment ++ spaces (8 - comment.length) ++ "\n"

/-- A character that separates the tokens of a kernel name: the underscore or
whitespace. -/
def is_separator (c : Char) : Bool := c = '_' || isspace c

/-- The instructions on which the decomposer raises a fatal error: not
classical, not named `wait` once lower-cased, and either without a platform
entry under the lower-cased name or typed `readout` without being a custom
gate. -/
def fails_decomposition (platform : quantum_platform) (ins : gate) : Prop :=
  ins.type ≠ .__classical_gate__ ∧ lower_case ins.name ≠ "wait"
    ∧ (platform.instruction_settings (lower_case ins.name) = none
      ∨ (platform.instruction_settings (lower_case ins.name) = some "readout"
        ∧ ins.type ≠ .__custom_gate__))

instance (platform : quantum_platform) (ins : gate) :
    Decidable (fails_decomposition platform ins) := by
  unfold fails_decomposition
  infer_instance

/-- The synthesized move of a measurement result: the classical instruction
`fmr` with the operand list `[R, Q]`. -/
def fmr_instruction (R Q : Nat) : gate :=
  { name := "fmr", operands := [R, Q], creg_operands := [], type := .__classical_gate__,
    imm_value := 0 }

/-- The instructions that the decomposer writes for one instruction `ins` that
it accepts: nothing for a classical instruction, otherwise `ins` with its name
lower-cased, followed for a measurement with a classical destination `R` and
first qubit operand `Q` by the move `fmr [R, Q]`. -/
def decomposed_part (ins : gate) (part : List gate) : Prop :=
  (ins.type = .__classical_gate__ ∧ part = [])
  ∨ (ins.type ≠ .__classical_gate__ ∧ part = [{ ins with name := lower_case ins.name }])
  ∨ (ins.type = .__custom_gate__ ∧ ∃ R Q rs qs,
      ins.creg_operands = R :: rs ∧ ins.operands = Q :: qs
      ∧ part = [{ ins with name := lower_case ins.name }, fmr_instruction R Q])

/-- The number of line breaks in a text. -/
def line_breaks (text : String) : Nat := text.data.count '\n'

/-- A normal instruction of the code generator: neither a no-op nor classical. -/
def is_normal (g : gate) : Bool :=
  decide (g.type ≠ .__nop_gate__ ∧ g.type ≠ .__classical_gate__)

/-- The number of normal instructions in the sections of a bundle sequence. -/
def normal_instructions (bundles : List bundle_t) : Nat :=
  (bundles.map fun b => (b.parallel_sections.map fun sect => sect.countP is_normal).sum).sum

/-- An instruction that the code generator accepts inside a quantum section: it
is not classical and, unless it is a no-op, has exactly 1 or 2 operands. -/
def instruction_accepted (g : gate) : Prop :=
  g.type ≠ .__classical_gate__
    ∧ (g.type ≠ .__nop_gate__ → g.operands.length = 1 ∨ g.operands.length = 2)

/-- A section that the code generator accepts: a single classical instruction
with an opcode of the supported set, or a section that starts with a
non-classical instruction and holds accepted instructions only. -/
def section_accepted (sect : List gate) : Prop :=
  (∃ g, sect = [g] ∧ g.type = .__classical_gate__ ∧ g.name ∈ classical_opcodes)
  ∨ ((∃ first rest, sect = first :: rest ∧ first.type ≠ .__classical_gate__)
      ∧ ∀ g ∈ sect, instruction_accepted g)

/-! ## Classical encoder: properties -/

theorem intercalate_go_append (pre acc sep : String) (l : List String) :
    String.intercalate.go (pre ++ acc) sep l = pre ++ String.intercalate.go acc sep l := by
  induction l generalizing acc with
  | nil => rfl
  | cons a l ih =>
    simp only [String.intercalate.go]
    rw [← ih]
    simp only [String.append_assoc]

theorem classical_operands_cons (ss : String) (op : Nat) (rest : List Nat) :
    classical_operands ss (op :: rest)
      = ss ++ " " ++ ", ".intercalate ((op :: rest).map fun o => "r" ++ dec o) := by
  induction rest generalizing ss op with
  | nil =>
    simp only [classical_operands, List.map, String.intercalate, String.intercalate.go]
    apply String.ext
    simp [String.data_append]
  | cons r rs ih =>
    have step : classical_operands ss (op :: r :: rs)
        = classical_operands (ss ++ " r" ++ dec op ++ ",") (r :: rs) := rfl
    rw [step, ih]
    simp only [List.map, String.intercalate, String.intercalate.go]
    rw [← intercalate_go_append, ← intercalate_go_append]
    congr 1
    apply String.ext
    simp [String.data_append]

theorem classical_operands_eq (ss : String) (ops : List Nat) :
    classical_operands ss ops = ss ++ operands_text ops := by
  cases ops with
  | nil => simp [classical_operands, operands_text]
  | cons op rest => rw [classical_operands_cons, operands_text, String.append_assoc]

theorem classical_instruction2cccode_ok (g : gate) (h : g.name ∈ classical_opcodes) :
    classical_instruction2cccode g = .ok (g.name ++ operands_text g.operands) := by
  have h' : g.name = "add" ∨ g.name = "sub" ∨ g.name = "and" ∨ g.name = "or" ∨
      g.name = "not" ∨ g.name = "xor" ∨ g.name = "ldi" ∨ g.name = "nop" ∨ g.name = "cmp" := by
    simpa [classical_opcodes] using h
  simp only [classical_instruction2cccode, if_pos h', classical_operands_eq]
  simp

theorem classical_instruction2cccode_error (g : gate) (h : g.name ∉ classical_opcodes) :
    classical_instruction2cccode g = .error (.fatal ("Unknown classical operation'" ++ g.name
      ++ "' with'" ++ toString g.operands.length ++ "' operands!")) := by
  have h' : ¬ (g.name = "add" ∨ g.name = "sub" ∨ g.name = "and" ∨ g.name = "or" ∨
      g.name = "not" ∨ g.name = "xor" ∨ g.name = "ldi" ∨ g.name = "nop" ∨ g.name = "cmp") := by
    simpa [classical_opcodes] using h
  simp only [classical_instruction2cccode, if_neg h']


/-- C3 (as stated, refuted): for `add` with the register operands 0, 1, 2 the
encoder writes `add r0, r1, r2`, a space after each comma, and not the text
`add r0,r1,r2` in which a single comma separates the operands. -/
theorem classical_encoding_format_counterexample :
    classical_instruction2cccode
        { name := "add", operands := [0, 1, 2], creg_operands := [],
          type := .__classical_gate__, imm_value := 0 }
      = .ok "add r0, r1, r2"
    ∧ "add r0, r1, r2" ≠ "add r0,r1,r2" := by
  decide

/-- C3 (amended): for every classical instruction whose opcode is one of add,
sub, and, or, not, xor, cmp, nop the encoder returns exactly the opcode, one
space, and the operands in input order, each prefixed with `r` and separated by
a comma followed by one space, with no trailing comma; for an empty operand list
it returns the opcode alone. -/
theorem classical_encoding_format (g : gate)
    (h : g.name ∈ ["add", "sub", "and", "or", "not", "xor", "cmp", "nop"]) :
    (∀ op rest, g.operands = op :: rest →
      classical_instruction2cccode g
        = .ok (g.name ++ " " ++ ", ".intercalate (g.operands.map fun o => "r" ++ dec o)))
    ∧ (g.operands = [] → classical_instruction2cccode g = .ok g.name) := by
  have hmem : g.name ∈ classical_opcodes := by
    simp only [classical_opcodes, List.mem_cons, List.mem_singleton] at h ⊢
    tauto
  rw [classical_instruction2cccode_ok g hmem]
  constructor
  · intro op rest hops
    rw [hops, operands_text, String.append_assoc]
  · intro hops
    rw [hops, operands_text, String.append_empty]

/-- C3 (amended), at `sub r7, r0, r12` and at `nop` without operands. -/
theorem classical_encoding_format_witness :
    classical_instruction2cccode
        { name := "sub", operands := [7, 0, 12], creg_operands := [],
          type := .__classical_gate__, imm_value := 0 }
      = .ok "sub r7, r0, r12"
    ∧ classical_instruction2cccode
        { name := "nop", operands := [], creg_operands := [],
          type := .__classical_gate__, imm_value := 0 }
      = .ok "nop" :=
  ⟨((classical_encoding_format
        { name := "sub", operands := [7, 0, 12], creg_operands := [],
          type := .__classical_gate__, imm_value := 0 } (by decide)).1 7 [0, 12] rfl).trans
      (by decide),
   (classical_encoding_format
        { name := "nop", operands := [], creg_operands := [],
          type := .__classical_gate__, imm_value := 0 } (by decide)).2 rfl⟩

/-- C4: the encoder fails exactly when the opcode name is none of the nine
names add, sub, and, or, not, xor, ldi, nop, cmp (compared as they are written),
and returns a text exactly when it is one of them, whatever the operand list,
the empty one included. -/
theorem classical_encoding_fails_iff (g : gate) :
    ((∃ e, classical_instruction2cccode g = .error e)
        ↔ g.name ∉ ["add", "sub", "and", "or", "not", "xor", "ldi", "nop", "cmp"])
    ∧ ((∃ text, classical_instruction2cccode g = .ok text)
        ↔ g.name ∈ ["add", "sub", "and", "or", "not", "xor", "ldi", "nop", "cmp"]) := by
  by_cases h : g.name ∈ classical_opcodes
  · have h1 := classical_instruction2cccode_ok g h
    rw [classical_opcodes] at h
    constructor
    · constructor
      · rintro ⟨e, he⟩
        rw [h1] at he
        cases he
      · intro hn
        exact absurd h hn
    · exact ⟨fun _ => h, fun _ => ⟨_, h1⟩⟩
  · have h1 := classical_instruction2cccode_error g h
    rw [classical_opcodes] at h
    constructor
    · exact ⟨fun _ => h, fun _ => ⟨_, h1⟩⟩
    · constructor
      · rintro ⟨t, ht⟩
        rw [h1] at ht
        cases ht
      · intro hm
        exact absurd hm h


/-! ## Decomposer: properties -/

/-- C1 (as stated, refuted): a custom gate named `wait` that the platform types
as `readout`, with qubit operand 2 and classical destination 5, is passed on
alone, no move is synthesized; and a custom gate named `Measure`, typed
`readout` under `measure`, comes out with the name `measure`, so the first
output instruction differs from the instruction that was given. -/
theorem measurement_expansion_counterexample :
    decompose_instructions
        [{ name := "wait", operands := [2], creg_operands := [5],
           type := .__custom_gate__, imm_value := 0 }] []
        { instruction_settings := fun n => if n = "wait" then some "readout" else none,
          get_instruction_name := fun n => n, hardware_settings := fun _ => none }
      = .ok [{ name := "wait", operands := [2], creg_operands := [5],
               type := .__custom_gate__, imm_value := 0 }]
    ∧ decompose_instructions
        [{ name := "Measure", operands := [2], creg_operands := [5],
           type := .__custom_gate__, imm_value := 0 }] []
        { instruction_settings := fun n => if n = "measure" then some "readout" else none,
          get_instruction_name := fun n => n, hardware_settings := fun _ => none }
      = .ok [{ name := "measure", operands := [2], creg_operands := [5],
               type := .__custom_gate__, imm_value := 0 },
             { name := "fmr", operands := [5, 2], creg_operands := [],
               type := .__classical_gate__, imm_value := 0 }] := by
  constructor <;> rfl

/-- C1 (amended): for every custom-gate instruction whose lower-cased name is
not `wait` and is typed `readout` by the platform, with first qubit operand `Q`
and first classical operand `R`, decompose applied to the one-instruction
sequence returns exactly two instructions: the original instruction with its
name lower-cased, then a classical instruction named `fmr` whose operand list is
`[R, Q]`. -/
theorem measurement_expansion (platform : quantum_platform) (ins : gate)
    (Q R : Nat) (qs rs : List Nat)
    (hcustom : ins.type = .__custom_gate__)
    (hwait : lower_case ins.name ≠ "wait")
    (hreadout : platform.instruction_settings (lower_case ins.name) = some "readout")
    (hQ : ins.operands = Q :: qs)
    (hR : ins.creg_operands = R :: rs) :
    ∃ fmr : gate,
      decompose_instructions [ins] [] platform
        = .ok [{ ins with name := lower_case ins.name }, fmr]
      ∧ fmr.name = "fmr" ∧ fmr.operands = [R, Q] ∧ fmr.type = .__classical_gate__ := by
  refine ⟨classical_cc "fmr" [R, Q] 0, ?_, rfl, rfl, rfl⟩
  simp [decompose_instructions, decompose_instruction, hcustom, hwait, hreadout, hQ, hR]

/-- C1 (amended), at `MeasZ q4 -> r1` on a platform that types `measz` as
`readout`. -/
theorem measurement_expansion_witness :
    ∃ fmr : gate,
      decompose_instructions
          [{ name := "MeasZ", operands := [4], creg_operands := [1],
             type := .__custom_gate__, imm_value := 0 }] []
          { instruction_settings := fun n => if n = "measz" then some "readout" else none,
            get_instruction_name := fun n => n, hardware_settings := fun _ => none }
        = .ok [{ name := "measz", operands := [4], creg_operands := [1],
                 type := .__custom_gate__, imm_value := 0 }, fmr]
      ∧ fmr.name = "fmr" ∧ fmr.operands = [1, 4] ∧ fmr.type = .__classical_gate__ :=
  measurement_expansion
    { instruction_settings := fun n => if n = "measz" then some "readout" else none,
      get_instruction_name := fun n => n, hardware_settings := fun _ => none }
    { name := "MeasZ", operands := [4], creg_operands := [1],
      type := .__custom_gate__, imm_value := 0 }
    4 1 [] [] rfl (by decide) rfl rfl rfl

/-- C2 (as stated, refuted): a classical instruction `add`, for which the
platform holds an entry of type `none`, is dropped, the output is empty; and a
custom gate named `X`, typed `mw` under `x`, comes out with the name `x`, so the
output instruction differs from the instruction that was given. -/
theorem decomposition_pass_through_counterexample :
    decompose_instructions
        [{ name := "add", operands := [0, 1, 2], creg_operands := [],
           type := .__classical_gate__, imm_value := 0 }] []
        { instruction_settings := fun n => if n = "add" then some "none" else none,
          get_instruction_name := fun n => n, hardware_settings := fun _ => none }
      = .ok []
    ∧ decompose_instructions
        [{ name := "X", operands := [0], creg_operands := [],
           type := .__custom_gate__, imm_value := 0 }] []
        { instruction_settings := fun n => if n = "x" then some "mw" else none,
          get_instruction_name := fun n => n, hardware_settings := fun _ => none }
      = .ok [{ name := "x", operands := [0], creg_operands := [],
               type := .__custom_gate__, imm_value := 0 }] := by
  constructor <;> rfl

/-- C2 (amended): for every instruction that is not classical and whose
lower-cased name has a platform entry of a type other than `readout`, decompose
applied to the one-instruction sequence succeeds and returns exactly one
instruction, the input instruction with its name lower-cased. -/
theorem decomposition_pass_through (platform : quantum_platform) (ins : gate)
    (operation_type : String)
    (hclassical : ins.type ≠ .__classical_gate__)
    (hentry : platform.instruction_settings (lower_case ins.name) = some operation_type)
    (htype : operation_type ≠ "readout") :
    decompose_instructions [ins] [] platform
      = .ok [{ ins with name := lower_case ins.name }] := by
  by_cases hwait : lower_case ins.name = "wait"
  · simp [decompose_instructions, decompose_instruction, hclassical, hwait]
  · simp [decompose_instructions, decompose_instruction, hclassical, hwait, hentry, htype]

/-- C2 (amended), at the custom gate `CZ q0, q3` on a platform that types `cz`
as `flux`. -/
theorem decomposition_pass_through_witness :
    decompose_instructions
        [{ name := "CZ", operands := [0, 3], creg_operands := [],
           type := .__custom_gate__, imm_value := 0 }] []
        { instruction_settings := fun n => if n = "cz" then some "flux" else none,
          get_instruction_name := fun n => n, hardware_settings := fun _ => none }
      = .ok [{ name := "cz", operands := [0, 3], creg_operands := [],
               type := .__custom_gate__, imm_value := 0 }] :=
  decomposition_pass_through
    { instruction_settings := fun n => if n = "cz" then some "flux" else none,
      get_instruction_name := fun n => n, hardware_settings := fun _ => none }
    { name := "CZ", operands := [0, 3], creg_operands := [],
      type := .__custom_gate__, imm_value := 0 }
    "flux" (by decide) rfl (by decide)


/-! ## Code generator: properties -/

/-- C5 (failing inputs): a bundle of two parallel sections, a classical `add`
and a quantum `x`, in either order, is accepted and both sections are written
out; the check at line 526 counts the instructions of the classical section,
not the sections of the bundle. -/
theorem classical_exclusivity_failing_input :
    bundles2cccode
        [{ start_cycle := 0, duration_in_cycles := 1,
           parallel_sections :=
             [[{ name := "add", operands := [0, 1, 2], creg_operands := [],
                 type := .__classical_gate__, imm_value := 0 }],
              [{ name := "x", operands := [0], creg_operands := [],
                 type := .__custom_gate__, imm_value := 0 }]] }]
        { instruction_settings := fun _ => none,
          get_instruction_name := fun n => n, hardware_settings := fun _ => none }
      = .ok "add r0, r1, r2# x 0   \n\n"
    ∧ bundles2cccode
        [{ start_cycle := 0, duration_in_cycles := 1,
           parallel_sections :=
             [[{ name := "x", operands := [0], creg_operands := [],
                 type := .__custom_gate__, imm_value := 0 }],
              [{ name := "add", operands := [0, 1, 2], creg_operands := [],
                 type := .__classical_gate__, imm_value := 0 }]] }]
        { instruction_settings := fun _ => none,
          get_instruction_name := fun n => n, hardware_settings := fun _ => none }
      = .ok "# x 0   \nadd r0, r1, r2\n" := by
  constructor <;> rfl

/-- C6: for a bundle of exactly one parallel section that holds exactly one
classical instruction with an opcode of the supported set, the encoder returns a
text `code`, generation succeeds, and the text emitted for the bundle, alone or
after any earlier output, is `code` followed by one line break. -/
theorem classical_bundle_code (platform : quantum_platform) (g : gate)
    (start_cycle duration_in_cycles : Nat)
    (hclassical : g.type = .__classical_gate__)
    (hopcode : g.name ∈ ["add", "sub", "and", "or", "not", "xor", "ldi", "nop", "cmp"]) :
    ∃ code : String,
      classical_instruction2cccode g = .ok code
      ∧ bundles2cccode
          [{ start_cycle := start_cycle, duration_in_cycles := duration_in_cycles,
             parallel_sections := [[g]] }] platform
        = .ok (code ++ "\n")
      ∧ ∀ st : codegen_state, ∃ st' : codegen_state,
          bundle2cccode platform st
            { start_cycle := start_cycle, duration_in_cycles := duration_in_cycles,
              parallel_sections := [[g]] }
            = .ok st'
          ∧ st'.ssbundles = st.ssbundles ++ (code ++ "\n") := by
  have hcode := classical_instruction2cccode_ok g hopcode
  refine ⟨_, hcode, ?_, ?_⟩
  · simp [bundles2cccode, bundles_loop, bundle2cccode, parallel_sections2cccode,
      section2cccode, hclassical, hcode, codegen_init]
  · intro st
    simp only [bundle2cccode, parallel_sections2cccode, section2cccode, hclassical, hcode,
      List.length_singleton, ne_eq, not_true_eq_false, if_true, if_false]
    exact ⟨_, rfl, by simp [String.append_assoc]⟩

/-- C6, at the bundle that holds `cmp r1, r2` alone. -/
theorem classical_bundle_code_witness :
    ∃ code : String,
      classical_instruction2cccode
          { name := "cmp", operands := [1, 2], creg_operands := [],
            type := .__classical_gate__, imm_value := 0 } = .ok code
      ∧ bundles2cccode
          [{ start_cycle := 3, duration_in_cycles := 1,
             parallel_sections :=
               [[{ name := "cmp", operands := [1, 2], creg_operands := [],
                   type := .__classical_gate__, imm_value := 0 }]] }]
          { instruction_settings := fun _ => none,
            get_instruction_name := fun n => n, hardware_settings := fun _ => none }
        = .ok (code ++ "\n")
      ∧ ∀ st : codegen_state, ∃ st' : codegen_state,
          bundle2cccode
            { instruction_settings := fun _ => none,
              get_instruction_name := fun n => n, hardware_settings := fun _ => none }
            st
            { start_cycle := 3, duration_in_cycles := 1,
              parallel_sections :=
                [[{ name := "cmp", operands := [1, 2], creg_operands := [],
                    type := .__classical_gate__, imm_value := 0 }]] }
            = .ok st'
          ∧ st'.ssbundles = st.ssbundles ++ (code ++ "\n") :=
  classical_bundle_code
    { instruction_settings := fun _ => none,
      get_instruction_name := fun n => n, hardware_settings := fun _ => none }
    { name := "cmp", operands := [1, 2], creg_operands := [],
      type := .__classical_gate__, imm_value := 0 }
    3 1 rfl (by decide)


theorem emit_comment (ss comment : String) (h : comment.length ≠ 0) :
    emit ss comment "" = ss ++ comment_line comment := by
  unfold emit comment_line
  rw [if_neg h]
  by_cases h8 : comment.length < 8
  · rw [if_pos h8]
    simp [setw, endl, String.append_assoc]
  · rw [if_neg h8, if_pos (by rfl)]
    have h0 : 8 - comment.length = 0 := by omega
    rw [h0]
    apply String.ext
    simp [endl, spaces, String.data_append]

theorem comment_length_ne_zero (rest : String) : ("# " ++ rest).length ≠ 0 := by
  rw [String.length_append]
  have : "# ".length = 2 := by decide
  omega

theorem instruction2cccode_one (platform : quantum_platform) (ssinst : String) (instr : gate)
    (a : Nat) (hnop : instr.type ≠ .__nop_gate__) (hclassical : instr.type ≠ .__classical_gate__)
    (hops : instr.operands = [a]) :
    instruction2cccode platform ssinst instr
      = .ok (ssinst ++ comment_line
          ("# " ++ platform.get_instruction_name instr.name ++ " " ++ dec a)) := by
  simp only [instruction2cccode, if_neg hnop, if_neg hclassical, hops, verbose, if_true]
  rw [emit_comment]
  simp only [String.append_assoc]
  exact comment_length_ne_zero _

theorem instruction2cccode_two (platform : quantum_platform) (ssinst : String) (instr : gate)
    (a b : Nat) (hnop : instr.type ≠ .__nop_gate__)
    (hclassical : instr.type ≠ .__classical_gate__) (hops : instr.operands = [a, b]) :
    instruction2cccode platform ssinst instr
      = .ok (ssinst ++ comment_line
          ("# " ++ platform.get_instruction_name instr.name ++ " " ++ dec a ++ "," ++ dec b)) := by
  simp only [instruction2cccode, if_neg hnop, if_neg hclassical, hops, verbose, if_true]
  rw [emit_comment]
  simp only [String.append_assoc]
  exact comment_length_ne_zero _

theorem instruction2cccode_arity (platform : quantum_platform) (ssinst : String) (instr : gate)
    (hnop : instr.type ≠ .__nop_gate__) (hclassical : instr.type ≠ .__classical_gate__)
    (h1 : instr.operands.length ≠ 1) (h2 : instr.operands.length ≠ 2) :
    instruction2cccode platform ssinst instr
      = .error (.fatal "Only 1 and 2 operand instructions are supported !") := by
  simp only [instruction2cccode, if_neg hnop, if_neg hclassical]
  split
  · rename_i op0 hops
    rw [hops] at h1
    exact absurd rfl h1
  · rename_i op0 op1 hops
    rw [hops] at h2
    exact absurd rfl h2
  · rfl

theorem section_instructions2cccode_error (platform : quantum_platform) (instr : gate)
    (hbad : ∀ ssinst, ∃ e, instruction2cccode platform ssinst instr = .error e)
    (sect : List gate) (hmem : instr ∈ sect) (ssinst : String) :
    ∃ e, section_instructions2cccode platform sect ssinst = .error e := by
  induction sect generalizing ssinst with
  | nil => cases hmem
  | cons first rest ih =>
    rw [section_instructions2cccode]
    cases hstep : instruction2cccode platform ssinst first with
    | error e => exact ⟨e, rfl⟩
    | ok ssinst1 =>
      rcases List.mem_cons.mp hmem with heq | hrest
      · obtain ⟨e, he⟩ := hbad ssinst
        rw [heq, hstep] at he
        cases he
      · exact ih hrest ssinst1

theorem parallel_sections2cccode_error (platform : quantum_platform) (sect : List gate)
    (hbad : ∀ ssinst, ∃ e, section2cccode platform ssinst sect = .error e)
    (sections : List (List gate)) (hmem : sect ∈ sections) (ssinst : String) :
    ∃ e, parallel_sections2cccode platform sections ssinst = .error e := by
  induction sections generalizing ssinst with
  | nil => cases hmem
  | cons first rest ih =>
    rw [parallel_sections2cccode]
    cases hstep : section2cccode platform ssinst first with
    | error e => exact ⟨e, rfl⟩
    | ok ssinst1 =>
      rcases List.mem_cons.mp hmem with heq | hrest
      · obtain ⟨e, he⟩ := hbad ssinst
        rw [heq, hstep] at he
        cases he
      · exact ih hrest ssinst1

theorem bundles_loop_error (platform : quantum_platform) (bundle : bundle_t)
    (hbad : ∀ st, ∃ e, bundle2cccode platform st bundle = .error e)
    (bundles : List bundle_t) (hmem : bundle ∈ bundles) (st : codegen_state) :
    ∃ e, bundles_loop platform bundles st = .error e := by
  induction bundles generalizing st with
  | nil => cases hmem
  | cons first rest ih =>
    rw [bundles_loop]
    cases hstep : bundle2cccode platform st first with
    | error e => exact ⟨e, rfl⟩
    | ok st1 =>
      rcases List.mem_cons.mp hmem with heq | hrest
      · obtain ⟨e, he⟩ := hbad st
        rw [heq, hstep] at he
        cases he
      · exact ih hrest st1

theorem classical_instruction2cccode_fatal (g : gate) (e : Err)
    (h : classical_instruction2cccode g = .error e) : ∃ msg, e = .fatal msg := by
  by_cases hm : g.name ∈ classical_opcodes
  · rw [classical_instruction2cccode_ok g hm] at h
    cases h
  · rw [classical_instruction2cccode_error g hm] at h
    exact ⟨_, (Except.error.inj h).symm⟩

theorem instruction2cccode_fatal (platform : quantum_platform) (ssinst : String) (instr : gate)
    (e : Err) (h : instruction2cccode platform ssinst instr = .error e) :
    ∃ msg, e = .fatal msg := by
  by_cases hnop : instr.type = .__nop_gate__
  · simp [instruction2cccode, hnop] at h
  · by_cases hclassical : instr.type = .__classical_gate__
    · simp only [instruction2cccode, if_neg hnop, if_pos hclassical] at h
      exact ⟨_, (Except.error.inj h).symm⟩
    · by_cases h1 : instr.operands.length = 1
      · obtain ⟨a, ha⟩ := List.length_eq_one.mp h1
        rw [instruction2cccode_one platform ssinst instr a hnop hclassical ha] at h
        cases h
      · by_cases h2 : instr.operands.length = 2
        · obtain ⟨a, b, hab⟩ := List.length_eq_two.mp h2
          rw [instruction2cccode_two platform ssinst instr a b hnop hclassical hab] at h
          cases h
        · rw [instruction2cccode_arity platform ssinst instr hnop hclassical h1 h2] at h
          exact ⟨_, (Except.error.inj h).symm⟩

theorem section_instructions2cccode_fatal (platform : quantum_platform) (sect : List gate)
    (ssinst : String) (e : Err)
    (h : section_instructions2cccode platform sect ssinst = .error e) :
    ∃ msg, e = .fatal msg := by
  induction sect generalizing ssinst with
  | nil => cases h
  | cons first rest ih =>
    rw [section_instructions2cccode] at h
    cases hstep : instruction2cccode platform ssinst first with
    | error e1 =>
      rw [hstep] at h
      cases h
      exact instruction2cccode_fatal platform ssinst first e hstep
    | ok ssinst1 =>
      rw [hstep] at h
      exact ih ssinst1 h

theorem section2cccode_fatal (platform : quantum_platform) (ssinst : String)
    (sect : List gate) (e : Err) (hne : sect ≠ [])
    (h : section2cccode platform ssinst sect = .error e) : ∃ msg, e = .fatal msg := by
  cases sect with
  | nil => exact absurd rfl hne
  | cons first rest =>
    simp only [section2cccode] at h
    split at h
    · split at h
      · exact ⟨_, (Except.error.inj h).symm⟩
      · cases hcode : classical_instruction2cccode first with
        | error e1 =>
          rw [hcode] at h
          cases h
          exact classical_instruction2cccode_fatal first e hcode
        | ok code =>
          rw [hcode] at h
          cases h
    · exact section_instructions2cccode_fatal platform (first :: rest) ssinst e h

theorem parallel_sections2cccode_fatal (platform : quantum_platform)
    (sections : List (List gate)) (ssinst : String) (e : Err)
    (hne : [] ∉ sections)
    (h : parallel_sections2cccode platform sections ssinst = .error e) :
    ∃ msg, e = .fatal msg := by
  induction sections generalizing ssinst with
  | nil => cases h
  | cons first rest ih =>
    rw [parallel_sections2cccode] at h
    have hfirst : first ≠ [] := fun h0 => hne (h0 ▸ List.mem_cons_self _ _)
    have hrest : [] ∉ rest := fun h0 => hne (List.mem_cons_of_mem _ h0)
    cases hstep : section2cccode platform ssinst first with
    | error e1 =>
      rw [hstep] at h
      cases h
      exact section2cccode_fatal platform ssinst first e hfirst hstep
    | ok ssinst1 =>
      rw [hstep] at h
      exact ih ssinst1 hrest h

theorem bundles_loop_fatal (platform : quantum_platform) (bundles : List bundle_t)
    (st : codegen_state) (e : Err)
    (hne : ∀ b ∈ bundles, [] ∉ b.parallel_sections)
    (h : bundles_loop platform bundles st = .error e) : ∃ msg, e = .fatal msg := by
  induction bundles generalizing st with
  | nil => cases h
  | cons first rest ih =>
    rw [bundles_loop] at h
    cases hstep : bundle2cccode platform st first with
    | error e1 =>
      rw [hstep] at h
      cases h
      unfold bundle2cccode at hstep
      cases hsec : parallel_sections2cccode platform first.parallel_sections "" with
      | error e2 =>
        simp only [hsec] at hstep
        cases hstep
        exact parallel_sections2cccode_fatal platform first.parallel_sections "" e
          (hne first (List.mem_cons_self _ _)) hsec
      | ok ssinst =>
        simp only [hsec] at hstep
        cases hstep
    | ok st1 =>
      rw [hstep] at h
      exact ih st1 (fun b hb => hne b (List.mem_cons_of_mem _ hb)) h

/-- C7: generation fails for every bundle sequence in which some bundle has a
quantum section (one whose first instruction is not classical) that contains a
normal instruction, neither no-op nor classical, whose operand count is not 1
and not 2: so for 0 operands and for every count of 3 or more. When no section
of the sequence is empty the failure is a fatal error. -/
theorem arity_limit_failure (platform : quantum_platform) (bundles : List bundle_t)
    (bundle : bundle_t) (first : gate) (rest : List gate) (instr : gate)
    (hbundle : bundle ∈ bundles)
    (hsection : first :: rest ∈ bundle.parallel_sections)
    (hquantum : first.type ≠ .__classical_gate__)
    (hinstr : instr ∈ first :: rest)
    (hnop : instr.type ≠ .__nop_gate__)
    (hclassical : instr.type ≠ .__classical_gate__)
    (h1 : instr.operands.length ≠ 1)
    (h2 : instr.operands.length ≠ 2) :
    ∃ e, bundles2cccode bundles platform = .error e
      ∧ ((∀ b ∈ bundles, [] ∉ b.parallel_sections) → ∃ msg, e = .fatal msg) := by
  have hsect : ∀ ssinst, ∃ e, section2cccode platform ssinst (first :: rest) = .error e := by
    intro ssinst
    simp only [section2cccode, if_neg hquantum]
    exact section_instructions2cccode_error platform instr
      (fun ss => ⟨_, instruction2cccode_arity platform ss instr hnop hclassical h1 h2⟩)
      (first :: rest) hinstr ssinst
  have hb : ∀ st, ∃ e, bundle2cccode platform st bundle = .error e := by
    intro st
    obtain ⟨e, he⟩ := parallel_sections2cccode_error platform (first :: rest) hsect
      bundle.parallel_sections hsection ""
    exact ⟨e, by simp only [bundle2cccode, he]⟩
  obtain ⟨e, he⟩ := bundles_loop_error platform bundle hb bundles hbundle codegen_init
  exact ⟨e, by simp only [bundles2cccode, he],
    fun hne => bundles_loop_fatal platform bundles codegen_init e hne he⟩

/-- C7, at a bundle whose only section holds a three-operand gate, and at one
that holds a gate without operands: both fail with the arity error. -/
theorem arity_limit_failure_witness :
    bundles2cccode
        [{ start_cycle := 0, duration_in_cycles := 1,
           parallel_sections :=
             [[{ name := "toffoli", operands := [0, 1, 2], creg_operands := [],
                 type := .__custom_gate__, imm_value := 0 }]] }]
        { instruction_settings := fun _ => none,
          get_instruction_name := fun n => n, hardware_settings := fun _ => none }
      = .error (.fatal "Only 1 and 2 operand instructions are supported !")
    ∧ (∃ e, bundles2cccode
        [{ start_cycle := 0, duration_in_cycles := 1,
           parallel_sections :=
             [[{ name := "prep", operands := [], creg_operands := [],
                 type := .__custom_gate__, imm_value := 0 }]] }]
        { instruction_settings := fun _ => none,
          get_instruction_name := fun n => n, hardware_settings := fun _ => none }
      = .error e
        ∧ ((∀ b ∈ [({ start_cycle := 0, duration_in_cycles := 1,
                      parallel_sections :=
                        [[{ name := "prep", operands := [], creg_operands := [],
                            type := .__custom_gate__, imm_value := 0 }]] } : bundle_t)],
              [] ∉ b.parallel_sections) → ∃ msg, e = .fatal msg)) :=
  ⟨rfl,
   arity_limit_failure _ _ _ _ _
      { name := "prep", operands := [], creg_operands := [],
        type := .__custom_gate__, imm_value := 0 }
      (List.mem_singleton.mpr rfl) (List.mem_singleton.mpr rfl) (by decide)
      (List.mem_singleton.mpr rfl) (by decide) (by decide) (by decide) (by decide)⟩

/-- C8: for a bundle with a single quantum section that holds one normal
instruction, neither no-op nor classical, with resolved platform name `N`,
generation succeeds when the instruction has one operand `a` or two operands
`a`, `b`, and the emitted text is the comment `# N a`, respectively `# N a,b`
(operands in input order, decimal), on a line of its own, right-padded with
spaces only when it is shorter than 8 characters, followed by the line break
that ends the bundle. -/
theorem arity_limit_success (platform : quantum_platform) (instr : gate)
    (start_cycle duration_in_cycles : Nat)
    (hnop : instr.type ≠ .__nop_gate__)
    (hclassical : instr.type ≠ .__classical_gate__) :
    (∀ a, instr.operands = [a] →
      bundles2cccode
          [{ start_cycle := start_cycle, duration_in_cycles := duration_in_cycles,
             parallel_sections := [[instr]] }] platform
        = .ok (comment_line ("# " ++ platform.get_instruction_name instr.name ++ " " ++ dec a)
            ++ "\n"))
    ∧ (∀ a b, instr.operands = [a, b] →
      bundles2cccode
          [{ start_cycle := start_cycle, duration_in_cycles := duration_in_cycles,
             parallel_sections := [[instr]] }] platform
        = .ok (comment_line
            ("# " ++ platform.get_instruction_name instr.name ++ " " ++ dec a ++ "," ++ dec b)
            ++ "\n")) := by
  constructor
  · intro a hops
    simp [bundles2cccode, bundles_loop, bundle2cccode, parallel_sections2cccode,
      section2cccode, section_instructions2cccode, hclassical, codegen_init,
      instruction2cccode_one platform _ instr a hnop hclassical hops]
  · intro a b hops
    simp [bundles2cccode, bundles_loop, bundle2cccode, parallel_sections2cccode,
      section2cccode, section_instructions2cccode, hclassical, codegen_init,
      instruction2cccode_two platform _ instr a b hnop hclassical hops]

/-- C8, at `x q3` (a comment shorter than 8 characters, padded) and at
`cz q10, q11` resolved to `cz_park` (a longer comment, not padded). -/
theorem arity_limit_success_witness :
    bundles2cccode
        [{ start_cycle := 0, duration_in_cycles := 1,
           parallel_sections :=
             [[{ name := "x", operands := [3], creg_operands := [],
                 type := .__custom_gate__, imm_value := 0 }]] }]
        { instruction_settings := fun _ => none,
          get_instruction_name := fun n => n, hardware_settings := fun _ => none }
      = .ok "# x 3   \n\n"
    ∧ bundles2cccode
        [{ start_cycle := 4, duration_in_cycles := 2,
           parallel_sections :=
             [[{ name := "cz", operands := [10, 11], creg_operands := [],
                 type := .__custom_gate__, imm_value := 0 }]] }]
        { instruction_settings := fun _ => none,
          get_instruction_name := fun n => n ++ "_park", hardware_settings := fun _ => none }
      = .ok "# cz_park 10,11\n\n" :=
  ⟨((arity_limit_success
        { instruction_settings := fun _ => none,
          get_instruction_name := fun n => n, hardware_settings := fun _ => none }
        { name := "x", operands := [3], creg_operands := [],
          type := .__custom_gate__, imm_value := 0 }
        0 1 (by decide) (by decide)).1 3 rfl).trans (by decide),
   ((arity_limit_success
        { instruction_settings := fun _ => none,
          get_instruction_name := fun n => n ++ "_park", hardware_settings := fun _ => none }
        { name := "cz", operands := [10, 11], creg_operands := [],
          type := .__custom_gate__, imm_value := 0 }
        4 2 (by decide) (by decide)).2 10 11 rfl).trans (by decide)⟩


theorem getLastD_cons_eq (a d : Nat) (l : List Nat) :
    (a :: l).getLastD d = l.getLastD a := by
  cases l with
  | nil => rfl
  | cons b l => simp [List.getLastD, List.getLast_cons]

theorem bundle2cccode_cycle (platform : quantum_platform) (st st' : codegen_state)
    (bundle : bundle_t) (hle : st.curr_cycle ≤ bundle.start_cycle)
    (hbound : bundle.start_cycle < 2 ^ 64)
    (hstep : bundle2cccode platform st bundle = .ok st') :
    st'.curr_cycle = bundle.start_cycle
      ∧ st'.deltas = st.deltas ++ [bundle.start_cycle - st.curr_cycle] := by
  unfold bundle2cccode at hstep
  have hdelta : (bundle.start_cycle + 2 ^ 64 - st.curr_cycle) % 2 ^ 64
      = bundle.start_cycle - st.curr_cycle := by omega
  cases hsec : parallel_sections2cccode platform bundle.parallel_sections "" with
  | error e => simp [hsec] at hstep
  | ok ssinst =>
    simp only [hsec, hdelta, Except.ok.injEq] at hstep
    subst hstep
    refine ⟨?_, rfl⟩
    show (st.curr_cycle + (bundle.start_cycle - st.curr_cycle)) % 2 ^ 64 = bundle.start_cycle
    omega

theorem bundles_loop_cycles (platform : quantum_platform) (bundles : List bundle_t) :
    ∀ st st' : codegen_state,
      List.Chain (· ≤ ·) st.curr_cycle (bundles.map fun b => b.start_cycle) →
      (∀ b ∈ bundles, b.start_cycle < 2 ^ 64) →
      bundles_loop platform bundles st = .ok st' →
      st'.curr_cycle = (bundles.map fun b => b.start_cycle).getLastD st.curr_cycle
      ∧ st'.deltas = st.deltas ++ List.zipWith (· - ·) (bundles.map fun b => b.start_cycle)
          (st.curr_cycle :: bundles.map fun b => b.start_cycle)
      ∧ ∀ pre b post, bundles = pre ++ b :: post →
          ∃ sti, bundles_loop platform (pre ++ [b]) st = .ok sti
            ∧ sti.curr_cycle = b.start_cycle
            ∧ sti.deltas.getLast?
                = some (b.start_cycle - (pre.map fun b => b.start_cycle).getLastD st.curr_cycle) := by
  induction bundles with
  | nil =>
    intro st st' _ _ hrun
    simp only [bundles_loop, Except.ok.injEq] at hrun
    subst hrun
    refine ⟨rfl, by simp, ?_⟩
    intro pre b post h
    cases pre <;> cases h
  | cons first rest ih =>
    intro st st' hchain hbound hrun
    rw [List.map_cons, List.chain_cons] at hchain
    rw [bundles_loop] at hrun
    cases hstep : bundle2cccode platform st first with
    | error e => simp [hstep] at hrun
    | ok st1 =>
      simp only [hstep] at hrun
      obtain ⟨hcur, hdel⟩ := bundle2cccode_cycle platform st st1 first hchain.1
        (hbound first (List.mem_cons_self _ _)) hstep
      have hchain1 : List.Chain (· ≤ ·) st1.curr_cycle (rest.map fun b => b.start_cycle) := by
        rw [hcur]
        exact hchain.2
      obtain ⟨h1, h2, h3⟩ := ih st1 st' hchain1
        (fun b hb => hbound b (List.mem_cons_of_mem _ hb)) hrun
      refine ⟨?_, ?_, ?_⟩
      · rw [h1, hcur, List.map_cons, getLastD_cons_eq]
      · rw [h2, hdel, hcur]
        simp
      · intro pre b post hsplit
        cases pre with
        | nil =>
          simp only [List.nil_append, List.cons.injEq] at hsplit
          obtain ⟨hb, _⟩ := hsplit
          subst hb
          refine ⟨st1, ?_, hcur, ?_⟩
          · simp [bundles_loop, hstep]
          · rw [hdel]
            simp
        | cons p0 pre1 =>
          simp only [List.cons_append, List.cons.injEq] at hsplit
          obtain ⟨hp0, hrest⟩ := hsplit
          subst hp0
          obtain ⟨sti, hi1, hi2, hi3⟩ := h3 pre1 b post hrest
          refine ⟨sti, ?_, hi2, ?_⟩
          · simp only [List.cons_append, bundles_loop, hstep]
            exact hi1
          · rw [hi3, hcur, List.map_cons, getLastD_cons_eq]

/-- C9: for every bundle sequence with non-decreasing start cycles (each a
`size_t`) that the generator works through, with `curr_cycle` starting at 0:
the deltas computed are, bundle by bundle, the start cycle minus the start cycle
of the previous bundle (minus 0 for the first); the final cycle position is the
last start cycle; and after any bundle `b` is processed `curr_cycle` equals the
start cycle of `b`, the delta computed for `b` being the start cycle of `b`
minus that of the bundle before it. Only the start cycles enter these values,
the instructions and the emitted text do not. -/
theorem cycle_accounting (platform : quantum_platform) (bundles : List bundle_t)
    (st : codegen_state)
    (hsorted : List.Chain' (· ≤ ·) (bundles.map fun b => b.start_cycle))
    (hbound : ∀ b ∈ bundles, b.start_cycle < 2 ^ 64)
    (hrun : bundles_loop platform bundles codegen_init = .ok st) :
    st.deltas = List.zipWith (· - ·) (bundles.map fun b => b.start_cycle)
        (0 :: bundles.map fun b => b.start_cycle)
    ∧ st.curr_cycle = (bundles.map fun b => b.start_cycle).getLastD 0
    ∧ ∀ pre b post, bundles = pre ++ b :: post →
        ∃ sti, bundles_loop platform (pre ++ [b]) codegen_init = .ok sti
          ∧ sti.curr_cycle = b.start_cycle
          ∧ sti.deltas.getLast?
              = some (b.start_cycle - (pre.map fun b => b.start_cycle).getLastD 0) := by
  have hchain : List.Chain (· ≤ ·) codegen_init.curr_cycle
      (bundles.map fun b => b.start_cycle) := by
    cases bundles with
    | nil => exact List.Chain.nil
    | cons first rest => exact List.Chain.cons (Nat.zero_le _) hsorted
  obtain ⟨h1, h2, h3⟩ := bundles_loop_cycles platform bundles codegen_init st hchain hbound hrun
  refine ⟨?_, h1, h3⟩
  rw [h2]
  simp [codegen_init]


/-- C9, at four bundles with the start cycles 0, 5, 5, 9: the deltas are
0, 5, 0, 4 and the final cycle position is 9. -/
theorem cycle_accounting_witness :
    ∃ st : codegen_state,
      bundles_loop
          { instruction_settings := fun _ => none,
            get_instruction_name := fun n => n, hardware_settings := fun _ => none }
          [{ start_cycle := 0, duration_in_cycles := 1,
             parallel_sections :=
               [[{ name := "x", operands := [0], creg_operands := [],
                   type := .__custom_gate__, imm_value := 0 }]] },
           { start_cycle := 5, duration_in_cycles := 2,
             parallel_sections :=
               [[{ name := "cz", operands := [0, 1], creg_operands := [],
                   type := .__custom_gate__, imm_value := 0 }]] },
           { start_cycle := 5, duration_in_cycles := 1,
             parallel_sections :=
               [[{ name := "add", operands := [0, 1, 2], creg_operands := [],
                   type := .__classical_gate__, imm_value := 0 }]] },
           { start_cycle := 9, duration_in_cycles := 1, parallel_sections := [] }]
          codegen_init
        = .ok st
      ∧ st.deltas = [0, 5, 0, 4] ∧ st.curr_cycle = 9 :=
  ⟨{ ssbundles := "# x 0   \n\n# cz 0,1\n\nadd r0, r1, r2\n\n", curr_cycle := 9,
     deltas := [0, 5, 0, 4] },
   rfl,
   ((cycle_accounting
      { instruction_settings := fun _ => none,
        get_instruction_name := fun n => n, hardware_settings := fun _ => none }
      [{ start_cycle := 0, duration_in_cycles := 1,
         parallel_sections :=
           [[{ name := "x", operands := [0], creg_operands := [],
               type := .__custom_gate__, imm_value := 0 }]] },
       { start_cycle := 5, duration_in_cycles := 2,
         parallel_sections :=
           [[{ name := "cz", operands := [0, 1], creg_operands := [],
               type := .__custom_gate__, imm_value := 0 }]] },
       { start_cycle := 5, duration_in_cycles := 1,
         parallel_sections :=
           [[{ name := "add", operands := [0, 1, 2], creg_operands := [],
               type := .__classical_gate__, imm_value := 0 }]] },
       { start_cycle := 9, duration_in_cycles := 1, parallel_sections := [] }]
      { ssbundles := "# x 0   \n\n# cz 0,1\n\nadd r0, r1, r2\n\n", curr_cycle := 9,
        deltas := [0, 5, 0, 4] }
      (by simp) (by decide) rfl).1).trans (by decide),
   rfl⟩

/-! ## Control-flow frames: properties -/

/-- C10: for a for-start kernel with iteration count `n` and a for-end kernel
whose names derive the same label `L`, the prologue of the for-start kernel is
the annotation `# FOR_START(n)` and a line that starts with `L:`, padded with
spaces to 8 characters, and carries `move`, the operands `n,R63` padded to 16
characters and the comment on the counter register; the epilogue of the for-end
kernel is the annotation `# FOR_END` and a line that carries, after 8 spaces,
`loop`, the operands `R63,@L` padded to 16 characters and the same comment. -/
theorem loop_frame_pairing (kstart kend : quantum_kernel) (L : String)
    (hstart : kstart.type = .FOR_START)
    (hend : kend.type = .FOR_END)
    (hLstart : kernelLabel kstart = .ok L)
    (hLend : kernelLabel kend = .ok L) :
    get_prologue kstart
      = .ok ("# FOR_START(" ++ dec kstart.iterations ++ ")" ++ "\n"
          ++ (L ++ ":" ++ spaces (8 - (L ++ ":").length)
              ++ ("move" ++ spaces 4)
              ++ (dec kstart.iterations ++ ",R63"
                  ++ spaces (16 - (dec kstart.iterations ++ ",R63").length))
              ++ "# R63 is the 'for loop counter'" ++ "\n"))
    ∧ get_epilogue kend
      = .ok ("# FOR_END" ++ "\n"
          ++ (spaces 8
              ++ ("loop" ++ spaces 4)
              ++ ("R63,@" ++ L ++ spaces (16 - ("R63,@" ++ L).length))
              ++ "# R63 is the 'for loop counter'" ++ "\n")) := by
  constructor
  · simp only [get_prologue, hstart, hLstart, verbose, if_true, emit_ops, setw,
      loop_counter_comment, endl]
    congr 1
    have h4 : spaces (8 - "move".length) = spaces 4 := by decide
    rw [h4]
    simp only [String.append_assoc, String.empty_append]
  · simp only [get_epilogue, hend, hLend, verbose, if_true, emit_ops, setw,
      loop_counter_comment, endl]
    congr 1

/-- C10, at the kernels `sp1_for1_start` with 10 iterations and `sp1_for1_end`:
both names derive the label `sp1`, the initialization carries the operands
`10,R63` and the loop instruction the operands `R63,@sp1`. -/
theorem loop_frame_pairing_witness :
    kernelLabel
        { name := "sp1_for1_start", type := .FOR_START, iterations := 10,
          br_condition := { op0 := 0, op1 := 0, operation_name := "" },
          c := [], creg_count := 0 } = .ok "sp1"
    ∧ kernelLabel
        { name := "sp1_for1_end", type := .FOR_END, iterations := 0,
          br_condition := { op0 := 0, op1 := 0, operation_name := "" },
          c := [], creg_count := 0 } = .ok "sp1"
    ∧ get_prologue
        { name := "sp1_for1_start", type := .FOR_START, iterations := 10,
          br_condition := { op0 := 0, op1 := 0, operation_name := "" },
          c := [], creg_count := 0 }
      = .ok ("# FOR_START(10)\n"
          ++ "sp1:    move    10,R63          # R63 is the 'for loop counter'\n")
    ∧ get_epilogue
        { name := "sp1_for1_end", type := .FOR_END, iterations := 0,
          br_condition := { op0 := 0, op1 := 0, operation_name := "" },
          c := [], creg_count := 0 }
      = .ok ("# FOR_END\n"
          ++ "        loop    R63,@sp1        # R63 is the 'for loop counter'\n") :=
  have h := loop_frame_pairing
    { name := "sp1_for1_start", type := .FOR_START, iterations := 10,
      br_condition := { op0 := 0, op1 := 0, operation_name := "" },
      c := [], creg_count := 0 }
    { name := "sp1_for1_end", type := .FOR_END, iterations := 0,
      br_condition := { op0 := 0, op1 := 0, operation_name := "" },
      c := [], creg_count := 0 }
    "sp1" rfl rfl rfl rfl
  ⟨rfl, rfl, h.1.trans (by decide), h.2.trans (by decide)⟩


theorem isspace_replace (c : Char) :
    isspace (if c = '_' then ' ' else c) = is_separator c := by
  by_cases h : c = '_'
  · subst h
    decide
  · simp [is_separator, h]

theorem replace_of_not_separator (c : Char) (h : is_separator c = false) :
    (if c = '_' then ' ' else c) = c := by
  by_cases h1 : c = '_'
  · subst h1
    exact absurd h (by decide)
  · rw [if_neg h1]

theorem read_tokens_separator (c : Char) (cs cur : List Char) (h : is_separator c = true) :
    read_tokens ((c :: cs).map fun c => if c = '_' then ' ' else c) cur
      = if cur = [] then read_tokens (cs.map fun c => if c = '_' then ' ' else c) []
        else String.mk cur :: read_tokens (cs.map fun c => if c = '_' then ' ' else c) [] := by
  rw [List.map_cons, read_tokens, isspace_replace, h]
  rfl

theorem read_tokens_not_separator (c : Char) (cs cur : List Char)
    (h : is_separator c = false) :
    read_tokens ((c :: cs).map fun c => if c = '_' then ' ' else c) cur
      = read_tokens (cs.map fun c => if c = '_' then ' ' else c) (cur ++ [c]) := by
  rw [List.map_cons, read_tokens, isspace_replace, h, replace_of_not_separator c h]
  rfl

/-- A token that has been started runs up to the next separator. -/
theorem read_tokens_started (cs : List Char) :
    ∀ cur : List Char, cur ≠ [] →
      ∃ (L t : List Char) (rest : List String),
        read_tokens (cs.map fun c => if c = '_' then ' ' else c) cur
          = String.mk (cur ++ L) :: rest
        ∧ cs = L ++ t
        ∧ (∀ c ∈ L, is_separator c = false)
        ∧ (t = [] ∨ ∃ c t', t = c :: t' ∧ is_separator c = true) := by
  induction cs with
  | nil =>
    intro cur hcur
    refine ⟨[], [], [], ?_, rfl, by simp, Or.inl rfl⟩
    simp [read_tokens, hcur]
  | cons c cs ih =>
    intro cur hcur
    by_cases hsep : is_separator c = true
    · refine ⟨[], c :: cs, read_tokens (cs.map fun c => if c = '_' then ' ' else c) [], ?_,
        rfl, by simp, Or.inr ⟨c, cs, rfl, hsep⟩⟩
      rw [read_tokens_separator c cs cur hsep, if_neg hcur, List.append_nil]
    · have hsep' : is_separator c = false := by simpa using hsep
      obtain ⟨L, t, rest, h1, h2, h3, h4⟩ := ih (cur ++ [c]) (by simp)
      refine ⟨c :: L, t, rest, ?_, by rw [h2]; rfl, ?_, h4⟩
      · rw [read_tokens_not_separator c cs cur hsep', h1]
        simp
      · intro x hx
        rcases List.mem_cons.mp hx with hx | hx
        · rw [hx]
          exact hsep'
        · exact h3 x hx

/-- The first token of a name that holds a character other than a separator. -/
theorem read_tokens_first (cs : List Char) (h : ∃ c ∈ cs, is_separator c = false) :
    ∃ (s L t : List Char) (rest : List String),
      read_tokens (cs.map fun c => if c = '_' then ' ' else c) [] = String.mk L :: rest
      ∧ cs = s ++ L ++ t
      ∧ (∀ c ∈ s, is_separator c = true)
      ∧ L ≠ []
      ∧ (∀ c ∈ L, is_separator c = false)
      ∧ (t = [] ∨ ∃ c t', t = c :: t' ∧ is_separator c = true) := by
  induction cs with
  | nil =>
    obtain ⟨c, hc, _⟩ := h
    cases hc
  | cons c cs ih =>
    by_cases hsep : is_separator c = true
    · have h' : ∃ x ∈ cs, is_separator x = false := by
        obtain ⟨x, hx, hxs⟩ := h
        rcases List.mem_cons.mp hx with hx | hx
        · rw [hx, hsep] at hxs
          cases hxs
        · exact ⟨x, hx, hxs⟩
      obtain ⟨s, L, t, rest, h1, h2, h3, h4, h5, h6⟩ := ih h'
      refine ⟨c :: s, L, t, rest, ?_, by rw [h2]; rfl, ?_, h4, h5, h6⟩
      · rw [read_tokens_separator c cs [] hsep, if_pos rfl]
        exact h1
      · intro x hx
        rcases List.mem_cons.mp hx with hx | hx
        · rw [hx]
          exact hsep
        · exact h3 x hx
    · have hsep' : is_separator c = false := by simpa using hsep
      obtain ⟨L, t, rest, h1, h2, h3, h4⟩ := read_tokens_started cs [c] (by simp)
      refine ⟨[], c :: L, t, rest, ?_, by rw [h2]; rfl, by simp, by simp, ?_, h4⟩
      · rw [read_tokens_not_separator c cs [] hsep', List.nil_append, h1]
        rfl
      · intro x hx
        rcases List.mem_cons.mp hx with hx | hx
        · rw [hx]
          exact hsep'
        · exact h3 x hx

theorem kernelLabel_of_token (k : quantum_kernel)
    (h : ∃ c ∈ k.name.data, is_separator c = false) :
    ∃ (s L t : List Char),
      kernelLabel k = .ok (String.mk L)
      ∧ k.name.data = s ++ L ++ t
      ∧ (∀ c ∈ s, is_separator c = true)
      ∧ L ≠ []
      ∧ (∀ c ∈ L, is_separator c = false)
      ∧ (t = [] ∨ ∃ c t', t = c :: t' ∧ is_separator c = true) := by
  obtain ⟨s, L, t, rest, h1, h2, h3, h4, h5, h6⟩ := read_tokens_first k.name.data h
  refine ⟨s, L, t, ?_, h2, h3, h4, h5, h6⟩
  simp only [kernelLabel, h1]

theorem is_separator_iff (c : Char) :
    is_separator c = true ↔ (c = '_' ∨ isspace c = true) := by
  simp [is_separator]

theorem is_separator_false_iff (c : Char) :
    is_separator c = false ↔ (c ≠ '_' ∧ isspace c = false) := by
  simp [is_separator]


/-- C11: for every kernel whose name holds at least one character other than
the underscore and whitespace, the derived label `L` is the first token of the
name: the name is `s ++ L ++ t`, where `s` consists of underscores and
whitespace only, `L` is not empty and holds no underscore and no whitespace, and
`t` is empty or begins with an underscore or a whitespace character. -/
theorem label_derivation (k : quantum_kernel)
    (h : ∃ c ∈ k.name.data, c ≠ '_' ∧ isspace c = false) :
    ∃ s L t : String,
      kernelLabel k = .ok L
      ∧ k.name = s ++ L ++ t
      ∧ (∀ c ∈ s.data, c = '_' ∨ isspace c = true)
      ∧ L ≠ ""
      ∧ (∀ c ∈ L.data, c ≠ '_' ∧ isspace c = false)
      ∧ (t = "" ∨ ∃ c rest, t.data = c :: rest ∧ (c = '_' ∨ isspace c = true)) := by
  have h' : ∃ c ∈ k.name.data, is_separator c = false := by
    obtain ⟨c, hc, hc'⟩ := h
    exact ⟨c, hc, (is_separator_false_iff c).mpr hc'⟩
  obtain ⟨s, L, t, h1, h2, h3, h4, h5, h6⟩ := kernelLabel_of_token k h'
  refine ⟨String.mk s, String.mk L, String.mk t, h1, ?_, ?_, ?_, ?_, ?_⟩
  · apply String.ext
    simp [String.data_append, h2]
  · intro c hc
    exact (is_separator_iff c).mp (h3 c hc)
  · intro hL
    apply h4
    exact congrArg String.data hL
  · intro c hc
    exact (is_separator_false_iff c).mp (h5 c hc)
  · rcases h6 with h6 | ⟨c, t', ht, hc⟩
    · left
      rw [h6]
    · right
      exact ⟨c, t', ht, (is_separator_iff c).mp hc⟩

/-- C11, at the kernel name `sp1_for1_start`, which derives the label `sp1`
(with `s` empty and `t` the rest `_for1_start`). -/
theorem label_derivation_witness :
    kernelLabel
        { name := "sp1_for1_start", type := .FOR_START, iterations := 10,
          br_condition := { op0 := 0, op1 := 0, operation_name := "" },
          c := [], creg_count := 0 } = .ok "sp1"
    ∧ "sp1_for1_start" = "" ++ "sp1" ++ "_for1_start"
    ∧ ∃ s L t : String,
        kernelLabel
            { name := "sp1_for1_start", type := .FOR_START, iterations := 10,
              br_condition := { op0 := 0, op1 := 0, operation_name := "" },
              c := [], creg_count := 0 } = .ok L
        ∧ "sp1_for1_start" = s ++ L ++ t
        ∧ (∀ c ∈ s.data, c = '_' ∨ isspace c = true)
        ∧ L ≠ ""
        ∧ (∀ c ∈ L.data, c ≠ '_' ∧ isspace c = false)
        ∧ (t = "" ∨ ∃ c rest, t.data = c :: rest ∧ (c = '_' ∨ isspace c = true)) :=
  ⟨rfl, by decide,
   label_derivation
    { name := "sp1_for1_start", type := .FOR_START, iterations := 10,
      br_condition := { op0 := 0, op1 := 0, operation_name := "" },
      c := [], creg_count := 0 }
    ⟨'s', by decide, by decide, by decide⟩⟩

/-- C12 (as stated, refuted): for a for-start kernel with the empty name, and
for a for-end kernel named `_`, no label can be derived: the name has no token
and `tokens[0]` is read outside the vector, so prologue and epilogue do not
return a text. -/
theorem frame_totality_counterexample :
    get_prologue
        { name := "", type := .FOR_START, iterations := 10,
          br_condition := { op0 := 0, op1 := 0, operation_name := "" },
          c := [], creg_count := 0 }
      = .error (.undefined "tokens[0] of an empty vector")
    ∧ get_epilogue
        { name := "_", type := .FOR_END, iterations := 0,
          br_condition := { op0 := 0, op1 := 0, operation_name := "" },
          c := [], creg_count := 0 }
      = .error (.undefined "tokens[0] of an empty vector") := by
  constructor <;> rfl

/-- C12 (amended): prologue and epilogue return a text, without failing, for
every kernel descriptor of every role, provided that the name holds at least one
character other than the underscore and whitespace when the role is for-start,
do-while-start or for-end (the roles for which a label is derived); for the
plain role both return the empty text. -/
theorem frame_totality (k : quantum_kernel)
    (hname : k.type = .FOR_START ∨ k.type = .DO_WHILE_START ∨ k.type = .FOR_END →
      ∃ c ∈ k.name.data, c ≠ '_' ∧ isspace c = false) :
    (∃ text, get_prologue k = .ok text)
    ∧ (∃ text, get_epilogue k = .ok text)
    ∧ (k.type = .STATIC → get_prologue k = .ok "" ∧ get_epilogue k = .ok "") := by
  have hlabel : k.type = .FOR_START ∨ k.type = .DO_WHILE_START ∨ k.type = .FOR_END →
      ∃ L, kernelLabel k = .ok L := by
    intro hrole
    obtain ⟨c, hc, hc'⟩ := hname hrole
    obtain ⟨s, L, t, h1, _⟩ := kernelLabel_of_token k ⟨c, hc, (is_separator_false_iff c).mpr hc'⟩
    exact ⟨_, h1⟩
  refine ⟨?_, ?_, ?_⟩
  · cases hrole : k.type
    all_goals first
      | (simp only [get_prologue, hrole]
         exact ⟨_, rfl⟩)
      | (obtain ⟨L, hL⟩ := hlabel (by simp [hrole])
         simp only [get_prologue, hrole, hL]
         exact ⟨_, rfl⟩)
  · cases hrole : k.type
    all_goals first
      | (simp only [get_epilogue, hrole]
         exact ⟨_, rfl⟩)
      | (obtain ⟨L, hL⟩ := hlabel (by simp [hrole])
         simp only [get_epilogue, hrole, hL]
         exact ⟨_, rfl⟩)
  · intro hrole
    simp only [get_prologue, get_epilogue, hrole, and_self]

/-- C12 (amended), at the do-while-start kernel `sp2_do_start` and at a plain
kernel with the empty name. -/
theorem frame_totality_witness :
    ((∃ text, get_prologue
        { name := "sp2_do_start", type := .DO_WHILE_START, iterations := 0,
          br_condition := { op0 := 1, op1 := 2, operation_name := "lt" },
          c := [], creg_count := 0 } = .ok text)
      ∧ (∃ text, get_epilogue
        { name := "sp2_do_start", type := .DO_WHILE_START, iterations := 0,
          br_condition := { op0 := 1, op1 := 2, operation_name := "lt" },
          c := [], creg_count := 0 } = .ok text))
    ∧ get_prologue
        { name := "", type := .STATIC, iterations := 0,
          br_condition := { op0 := 0, op1 := 0, operation_name := "" },
          c := [], creg_count := 0 } = .ok ""
    ∧ get_epilogue
        { name := "", type := .STATIC, iterations := 0,
          br_condition := { op0 := 0, op1 := 0, operation_name := "" },
          c := [], creg_count := 0 } = .ok "" :=
  have h1 := frame_totality
    { name := "sp2_do_start", type := .DO_WHILE_START, iterations := 0,
      br_condition := { op0 := 1, op1 := 2, operation_name := "lt" },
      c := [], creg_count := 0 }
    (fun _ => ⟨'s', by decide, by decide, by decide⟩)
  have h2 := frame_totality
    { name := "", type := .STATIC, iterations := 0,
      br_condition := { op0 := 0, op1 := 0, operation_name := "" },
      c := [], creg_count := 0 }
    (fun h => absurd h (by decide))
  ⟨⟨h1.1, h1.2.1⟩, h2.2.2 rfl⟩


/-- C19: for a kernel with branch condition operands of ids `a` and `b` and
comparator name `cmp`, the prologue of an if-start kernel is exactly the comment
line `# IF_START(Ra cmp Rb)`, that of an else-start kernel is exactly
`# ELSE_START(Ra cmp Rb)`, and the epilogue of a do-while-end kernel is exactly
`# DO_WHILE_END(Ra cmp Rb)`; the epilogue of if-start, else-start, for-start and
do-while-start kernels and the prologue of for-end and do-while-end kernels are
the empty text. The remaining frames of roles other than for-start and for-end
hold no instruction either: both frames of a plain kernel are empty, and the
prologue of a do-while-start kernel, when a label can be derived, is the comment
line `# DO_WHILE_START`. -/
theorem non_loop_frames (name : String) (iterations a b : Nat) (cmp : String)
    (ckt : List gate) (creg_count : Nat) :
    get_prologue
        { name := name, type := .IF_START, iterations := iterations,
          br_condition := { op0 := a, op1 := b, operation_name := cmp },
          c := ckt, creg_count := creg_count }
      = .ok ("# IF_START(R" ++ dec a ++ " " ++ cmp ++ " R" ++ dec b ++ ")" ++ "\n")
    ∧ get_prologue
        { name := name, type := .ELSE_START, iterations := iterations,
          br_condition := { op0 := a, op1 := b, operation_name := cmp },
          c := ckt, creg_count := creg_count }
      = .ok ("# ELSE_START(R" ++ dec a ++ " " ++ cmp ++ " R" ++ dec b ++ ")" ++ "\n")
    ∧ get_epilogue
        { name := name, type := .DO_WHILE_END, iterations := iterations,
          br_condition := { op0 := a, op1 := b, operation_name := cmp },
          c := ckt, creg_count := creg_count }
      = .ok ("# DO_WHILE_END(R" ++ dec a ++ " " ++ cmp ++ " R" ++ dec b ++ ")" ++ "\n")
    ∧ (∀ role ∈ [kernel_type_t.IF_START, .ELSE_START, .FOR_START, .DO_WHILE_START, .STATIC],
        get_epilogue
            { name := name, type := role, iterations := iterations,
              br_condition := { op0 := a, op1 := b, operation_name := cmp },
              c := ckt, creg_count := creg_count }
          = .ok "")
    ∧ (∀ role ∈ [kernel_type_t.FOR_END, .DO_WHILE_END, .STATIC],
        get_prologue
            { name := name, type := role, iterations := iterations,
              br_condition := { op0 := a, op1 := b, operation_name := cmp },
              c := ckt, creg_count := creg_count }
          = .ok "")
    ∧ (get_prologue
          { name := name, type := .DO_WHILE_START, iterations := iterations,
            br_condition := { op0 := a, op1 := b, operation_name := cmp },
            c := ckt, creg_count := creg_count }
        = .ok "# DO_WHILE_START\n"
      ∨ get_prologue
          { name := name, type := .DO_WHILE_START, iterations := iterations,
            br_condition := { op0 := a, op1 := b, operation_name := cmp },
            c := ckt, creg_count := creg_count }
        = .error (.undefined "tokens[0] of an empty vector")) := by
  refine ⟨?_, ?_, ?_, ?_, ?_, ?_⟩
  · simp [get_prologue, verbose, endl]
  · simp [get_prologue, verbose, endl]
  · simp [get_epilogue, verbose, endl]
  · intro role hrole
    simp only [List.mem_cons, List.mem_singleton, List.not_mem_nil, or_false] at hrole
    rcases hrole with h | h | h | h | h <;> subst h <;> rfl
  · intro role hrole
    simp only [List.mem_cons, List.mem_singleton, List.not_mem_nil, or_false] at hrole
    rcases hrole with h | h | h <;> subst h <;> rfl
  · simp only [get_prologue, kernelLabel]
    cases read_tokens (List.map (fun c => if c = '_' then ' ' else c) name.data) [] with
    | nil => right; rfl
    | cons token rest => left; rfl

/-- C20: two `ldi` instructions with the same register operand list are encoded
to the same text, whatever their immediate values (and other members): the text
is `ldi` followed by the operand list, rendered as it is for every other opcode
of the supported set, a space and the operands as `r` and number joined by a
comma and a space, nothing for an empty list; the immediate is not in it. -/
theorem ldi_immediate_dropped (ops cregs1 cregs2 : List Nat) (type1 type2 : gate_type_t)
    (imm1 imm2 : Int) :
    classical_instruction2cccode
        { name := "ldi", operands := ops, creg_operands := cregs1, type := type1,
          imm_value := imm1 }
      = classical_instruction2cccode
        { name := "ldi", operands := ops, creg_operands := cregs2, type := type2,
          imm_value := imm2 }
    ∧ (∃ operand_text : String,
        classical_instruction2cccode
            { name := "ldi", operands := ops, creg_operands := cregs1, type := type1,
              imm_value := imm1 }
          = .ok ("ldi" ++ operand_text)
        ∧ (∀ op rest, ops = op :: rest →
            operand_text = " " ++ ", ".intercalate (ops.map fun o => "r" ++ dec o))
        ∧ (ops = [] → operand_text = "")
        ∧ ∀ opcode ∈ ["add", "sub", "and", "or", "not", "xor", "nop", "cmp"],
            classical_instruction2cccode
                { name := opcode, operands := ops, creg_operands := cregs1, type := type1,
                  imm_value := imm1 }
              = .ok (opcode ++ operand_text)) := by
  have hldi : "ldi" ∈ classical_opcodes := by decide
  constructor
  · rw [classical_instruction2cccode_ok _ hldi, classical_instruction2cccode_ok _ hldi]
  · refine ⟨operands_text ops, classical_instruction2cccode_ok _ hldi, ?_, ?_, ?_⟩
    · intro op rest hops
      rw [hops, operands_text]
    · intro hops
      rw [hops, operands_text]
    · intro opcode hop
      apply classical_instruction2cccode_ok
      simp only [classical_opcodes, List.mem_cons, List.mem_singleton, List.not_mem_nil,
        or_false] at hop ⊢
      tauto


/-! ## Decomposer: failure condition and structure of the output -/

theorem classical_cc_fmr (R Q : Nat) : classical_cc "fmr" [R, Q] 0 = fmr_instruction R Q := rfl

theorem decompose_instruction_wait (d : List gate) (ins : gate) (platform : quantum_platform)
    (hc : ins.type ≠ .__classical_gate__) (hw : lower_case ins.name = "wait") :
    decompose_instruction d ins platform = .ok (d ++ [{ ins with name := lower_case ins.name }]) := by
  simp [decompose_instruction, hc, hw]

theorem decompose_instruction_no_entry (d : List gate) (ins : gate)
    (platform : quantum_platform)
    (hc : ins.type ≠ .__classical_gate__) (hw : lower_case ins.name ≠ "wait")
    (hs : platform.instruction_settings (lower_case ins.name) = none) :
    decompose_instruction d ins platform
      = .error (.fatal ("instruction settings not found for '" ++ lower_case ins.name
          ++ "' with'" ++ toString ins.operands.length ++ "' operands!")) := by
  simp only [decompose_instruction, if_neg hc, if_neg hw, hs]

theorem decompose_instruction_plain (d : List gate) (ins : gate) (platform : quantum_platform)
    (operation_type : String)
    (hc : ins.type ≠ .__classical_gate__) (hw : lower_case ins.name ≠ "wait")
    (hs : platform.instruction_settings (lower_case ins.name) = some operation_type)
    (ht : operation_type ≠ "readout") :
    decompose_instruction d ins platform = .ok (d ++ [{ ins with name := lower_case ins.name }]) := by
  simp [decompose_instruction, hc, hw, hs, ht]

theorem decompose_instruction_no_operand (d : List gate) (ins : gate)
    (platform : quantum_platform)
    (hc : ins.type ≠ .__classical_gate__) (hw : lower_case ins.name ≠ "wait")
    (hs : platform.instruction_settings (lower_case ins.name) = some "readout")
    (ho : ins.operands = []) :
    decompose_instruction d ins platform
      = .error (.undefined "iopers[0] of an empty vector") := by
  simp [decompose_instruction, hc, hw, hs, ho]

theorem decompose_instruction_unknown (d : List gate) (ins : gate)
    (platform : quantum_platform) (Q : Nat) (qs : List Nat)
    (hc : ins.type ≠ .__classical_gate__) (hw : lower_case ins.name ≠ "wait")
    (hs : platform.instruction_settings (lower_case ins.name) = some "readout")
    (ho : ins.operands = Q :: qs) (hcu : ins.type ≠ .__custom_gate__) :
    decompose_instruction d ins platform
      = .error (.fatal ("Unknown decomposition of measure/readout operation '"
          ++ lower_case ins.name ++ "'!")) := by
  simp [decompose_instruction, hc, hw, hs, ho, hcu]

theorem decompose_instruction_measure (d : List gate) (ins : gate)
    (platform : quantum_platform) (Q : Nat) (qs : List Nat)
    (hw : lower_case ins.name ≠ "wait")
    (hs : platform.instruction_settings (lower_case ins.name) = some "readout")
    (ho : ins.operands = Q :: qs) (hcu : ins.type = .__custom_gate__)
    (hcr : ins.creg_operands = []) :
    decompose_instruction d ins platform = .ok (d ++ [{ ins with name := lower_case ins.name }]) := by
  simp [decompose_instruction, hw, hs, ho, hcu, hcr]

theorem decompose_instruction_move (d : List gate) (ins : gate)
    (platform : quantum_platform) (Q R : Nat) (qs rs : List Nat)
    (hw : lower_case ins.name ≠ "wait")
    (hs : platform.instruction_settings (lower_case ins.name) = some "readout")
    (ho : ins.operands = Q :: qs) (hcu : ins.type = .__custom_gate__)
    (hcr : ins.creg_operands = R :: rs) :
    decompose_instruction d ins platform
      = .ok (d ++ [{ ins with name := lower_case ins.name }, fmr_instruction R Q]) := by
  simp [decompose_instruction, hw, hs, ho, hcu, hcr, classical_cc_fmr]

/-- What the loop body of the decomposer does with one instruction, whatever
has been written before: it appends a part of the shape `decomposed_part`, or
raises a fatal error, the latter exactly on `fails_decomposition`, or reads the
first operand of a `readout` instruction that has none. -/
theorem decompose_instruction_cases (platform : quantum_platform) (ins : gate) :
    (∃ part, (∀ d, decompose_instruction d ins platform = .ok (d ++ part))
        ∧ ¬ fails_decomposition platform ins ∧ decomposed_part ins part)
    ∨ (∃ msg, (∀ d, decompose_instruction d ins platform = .error (.fatal msg))
        ∧ fails_decomposition platform ins)
    ∨ (∃ what, (∀ d, decompose_instruction d ins platform = .error (.undefined what))
        ∧ platform.instruction_settings (lower_case ins.name) = some "readout"
        ∧ ins.operands = []) := by
  by_cases hc : ins.type = .__classical_gate__
  · left
    refine ⟨[], ?_, fun h => h.1 hc, Or.inl ⟨hc, rfl⟩⟩
    intro d
    simp [decompose_instruction, hc]
  by_cases hw : lower_case ins.name = "wait"
  · left
    exact ⟨_, fun d => decompose_instruction_wait d ins platform hc hw, fun h => h.2.1 hw,
      Or.inr (Or.inl ⟨hc, rfl⟩)⟩
  rcases hs : platform.instruction_settings (lower_case ins.name) with _ | operation_type
  · right; left
    exact ⟨_, fun d => decompose_instruction_no_entry d ins platform hc hw hs,
      hc, hw, Or.inl hs⟩
  by_cases ht : operation_type = "readout"
  · subst ht
    rcases ho : ins.operands with _ | ⟨Q, qs⟩
    · right; right
      exact ⟨_, fun d => decompose_instruction_no_operand d ins platform hc hw hs ho, rfl, rfl⟩
    by_cases hcu : ins.type = .__custom_gate__
    · left
      have hnot : ¬ fails_decomposition platform ins := by
        rintro ⟨_, _, h | h⟩
        · rw [hs] at h
          cases h
        · exact h.2 hcu
      rcases hcr : ins.creg_operands with _ | ⟨R, rs⟩
      · exact ⟨_, fun d => decompose_instruction_measure d ins platform Q qs hw hs ho hcu hcr,
          hnot, Or.inr (Or.inl ⟨hc, rfl⟩)⟩
      · exact ⟨_, fun d => decompose_instruction_move d ins platform Q R qs rs hw hs ho hcu hcr,
          hnot, Or.inr (Or.inr ⟨hcu, R, Q, rs, qs, hcr, ho, rfl⟩)⟩
    · right; left
      exact ⟨_, fun d => decompose_instruction_unknown d ins platform Q qs hc hw hs ho hcu,
        hc, hw, Or.inr ⟨hs, hcu⟩⟩
  · left
    refine ⟨_, fun d => decompose_instruction_plain d ins platform operation_type hc hw hs ht,
      ?_, Or.inr (Or.inl ⟨hc, rfl⟩)⟩
    rintro ⟨_, _, h | h⟩
    · rw [hs] at h
      cases h
    · rw [hs] at h
      exact ht (Option.some.inj h.1)

theorem decompose_instructions_cons_ok (platform : quantum_platform) (ins : gate)
    (ckt d part : List gate)
    (h : ∀ d, decompose_instruction d ins platform = .ok (d ++ part)) :
    decompose_instructions (ins :: ckt) d platform
      = decompose_instructions ckt (d ++ part) platform := by
  rw [decompose_instructions, h d]

theorem decompose_instructions_cons_error (platform : quantum_platform) (ins : gate)
    (ckt d : List gate) (e : Err)
    (h : ∀ d, decompose_instruction d ins platform = .error e) :
    decompose_instructions (ins :: ckt) d platform = .error e := by
  rw [decompose_instructions, h d]

/-- The result of the decomposer for a circuit `ckt`, whatever has been written
before: the parts of its instructions, appended in order, or the error of the
first instruction that has one. -/
theorem decompose_instructions_parts (platform : quantum_platform) (ckt : List gate) :
    (∃ parts : List (List gate),
        (∀ d, decompose_instructions ckt d platform = .ok (d ++ parts.flatten))
        ∧ List.Forall₂ (fun ins part =>
            (∀ d, decompose_instruction d ins platform = .ok (d ++ part))
            ∧ decomposed_part ins part) ckt parts
        ∧ ∀ ins ∈ ckt, ¬ fails_decomposition platform ins)
    ∨ (∃ msg, (∀ d, decompose_instructions ckt d platform = .error (.fatal msg))
        ∧ ∃ ins ∈ ckt, fails_decomposition platform ins)
    ∨ (∃ what, (∀ d, decompose_instructions ckt d platform = .error (.undefined what))
        ∧ ∃ ins ∈ ckt, platform.instruction_settings (lower_case ins.name) = some "readout"
            ∧ ins.operands = []) := by
  induction ckt with
  | nil =>
    left
    exact ⟨[], fun d => by simp [decompose_instructions], List.Forall₂.nil, by simp⟩
  | cons ins ckt ih =>
    rcases decompose_instruction_cases platform ins with
      ⟨part, hpart, hnot, hshape⟩ | ⟨msg, herr, hbad⟩ | ⟨what, herr, hs, ho⟩
    · rcases ih with ⟨parts, hparts, hall, hnone⟩ | ⟨msg, herr, ins', hmem, hbad⟩
          | ⟨what, herr, ins', hmem, hs, ho⟩
      · left
        refine ⟨part :: parts, ?_, List.Forall₂.cons ⟨hpart, hshape⟩ hall, ?_⟩
        · intro d
          rw [decompose_instructions_cons_ok platform ins ckt d part hpart, hparts]
          simp
        · intro x hx
          rcases List.mem_cons.mp hx with hx | hx
          · rw [hx]
            exact hnot
          · exact hnone x hx
      · right; left
        refine ⟨msg, ?_, ins', List.mem_cons_of_mem _ hmem, hbad⟩
        intro d
        rw [decompose_instructions_cons_ok platform ins ckt d part hpart, herr]
      · right; right
        refine ⟨what, ?_, ins', List.mem_cons_of_mem _ hmem, hs, ho⟩
        intro d
        rw [decompose_instructions_cons_ok platform ins ckt d part hpart, herr]
    · right; left
      exact ⟨msg, fun d => decompose_instructions_cons_error platform ins ckt d _ herr,
        ins, List.mem_cons_self _ _, hbad⟩
    · right; right
      exact ⟨what, fun d => decompose_instructions_cons_error platform ins ckt d _ herr,
        ins, List.mem_cons_self _ _, hs, ho⟩

theorem decomposed_part_length (ins : gate) (part : List gate) (h : decomposed_part ins part) :
    part.length ≤ 2 := by
  rcases h with ⟨_, h⟩ | ⟨_, h⟩ | ⟨_, R, Q, rs, qs, _, _, h⟩ <;> rw [h] <;> simp

theorem flatten_length_le (platform : quantum_platform) (ckt : List gate)
    (parts : List (List gate))
    (h : List.Forall₂ (fun ins part =>
        (∀ d, decompose_instruction d ins platform = .ok (d ++ part))
        ∧ decomposed_part ins part) ckt parts) :
    parts.flatten.length ≤ 2 * ckt.length := by
  induction h with
  | nil => simp
  | cons hhead _ ih =>
    have := decomposed_part_length _ _ hhead.2
    simp only [List.flatten_cons, List.length_append, List.length_cons]
    omega

theorem decompose_instructions_append (platform : quantum_platform) (a b : List gate) :
    ∀ d, decompose_instructions (a ++ b) d platform
      = match decompose_instructions a d platform with
        | .error e => .error e
        | .ok d' => decompose_instructions b d' platform := by
  induction a with
  | nil =>
    intro d
    simp [decompose_instructions]
  | cons ins a ih =>
    intro d
    simp only [List.cons_append, decompose_instructions]
    cases decompose_instruction d ins platform with
    | error e => rfl
    | ok d' => exact ih d'

/-- C13 (as stated, refuted): a custom gate `measure` without operands, typed
`readout` by the platform, does not meet the stated failure condition (it has an
entry and is a custom gate), yet the decomposer does not return: it reads the
first operand of an empty operand vector. -/
theorem decomposition_failure_counterexample :
    decompose_instructions
        [{ name := "measure", operands := [], creg_operands := [5],
           type := .__custom_gate__, imm_value := 0 }] []
        { instruction_settings := fun n => if n = "measure" then some "readout" else none,
          get_instruction_name := fun n => n, hardware_settings := fun _ => none }
      = .error (.undefined "iopers[0] of an empty vector")
    ∧ ¬ fails_decomposition
        { instruction_settings := fun n => if n = "measure" then some "readout" else none,
          get_instruction_name := fun n => n, hardware_settings := fun _ => none }
        { name := "measure", operands := [], creg_operands := [5],
          type := .__custom_gate__, imm_value := 0 } := by
  constructor
  · rfl
  · decide

/-- C13 (amended): for every input sequence in which each instruction typed
`readout` by the platform has at least one operand, decompose fails if and only
if the sequence contains an instruction that is not classical, is not named
`wait` after lower-casing, and either has no platform entry under its
lower-cased name or is typed `readout` without being a custom gate; every such
failure is a fatal error. A `wait` instruction thus never causes a failure. -/
theorem decomposition_failure_iff (platform : quantum_platform) (ckt : List gate)
    (hoperand : ∀ ins ∈ ckt,
      platform.instruction_settings (lower_case ins.name) = some "readout" →
        ins.operands ≠ []) :
    ((∃ e, decompose_instructions ckt [] platform = .error e)
      ↔ ∃ ins ∈ ckt, ins.type ≠ .__classical_gate__ ∧ lower_case ins.name ≠ "wait"
          ∧ (platform.instruction_settings (lower_case ins.name) = none
            ∨ (platform.instruction_settings (lower_case ins.name) = some "readout"
              ∧ ins.type ≠ .__custom_gate__)))
    ∧ (∀ e, decompose_instructions ckt [] platform = .error e → ∃ msg, e = .fatal msg) := by
  rcases decompose_instructions_parts platform ckt with
    ⟨parts, hparts, _, hnone⟩ | ⟨msg, herr, ins, hmem, hbad⟩ | ⟨what, _, ins, hmem, hs, ho⟩
  · constructor
    · constructor
      · rintro ⟨e, he⟩
        rw [hparts] at he
        cases he
      · rintro ⟨ins, hmem, hbad⟩
        exact absurd hbad (hnone ins hmem)
    · intro e he
      rw [hparts] at he
      cases he
  · constructor
    · exact ⟨fun _ => ⟨ins, hmem, hbad⟩, fun _ => ⟨_, herr []⟩⟩
    · intro e he
      rw [herr] at he
      exact ⟨msg, (Except.error.inj he).symm⟩
  · exact absurd ho (hoperand ins hmem hs)

/-- C13 (amended), at the sequence of a `wait`, a known gate `x` and a gate `foo`
that the platform does not know: the decomposer fails on `foo`. -/
theorem decomposition_failure_witness :
    decompose_instructions
        [{ name := "wait", operands := [0], creg_operands := [],
           type := .__wait_gate__, imm_value := 0 },
         { name := "x", operands := [0], creg_operands := [],
           type := .__custom_gate__, imm_value := 0 },
         { name := "foo", operands := [1], creg_operands := [],
           type := .__custom_gate__, imm_value := 0 }] []
        { instruction_settings := fun n => if n = "x" then some "mw" else none,
          get_instruction_name := fun n => n, hardware_settings := fun _ => none }
      = .error (.fatal "instruction settings not found for 'foo' with'1' operands!")
    ∧ ∃ ins ∈ [({ name := "wait", operands := [0], creg_operands := [],
                  type := .__wait_gate__, imm_value := 0 } : gate),
               { name := "x", operands := [0], creg_operands := [],
                 type := .__custom_gate__, imm_value := 0 },
               { name := "foo", operands := [1], creg_operands := [],
                 type := .__custom_gate__, imm_value := 0 }],
        ins.type ≠ .__classical_gate__ ∧ lower_case ins.name ≠ "wait"
          ∧ ((if lower_case ins.name = "x" then some "mw" else none) = none
            ∨ ((if lower_case ins.name = "x" then some "mw" else none) = some "readout"
              ∧ ins.type ≠ .__custom_gate__)) :=
  ⟨rfl,
   (decomposition_failure_iff
      { instruction_settings := fun n => if n = "x" then some "mw" else none,
        get_instruction_name := fun n => n, hardware_settings := fun _ => none }
      [{ name := "wait", operands := [0], creg_operands := [],
         type := .__wait_gate__, imm_value := 0 },
       { name := "x", operands := [0], creg_operands := [],
         type := .__custom_gate__, imm_value := 0 },
       { name := "foo", operands := [1], creg_operands := [],
         type := .__custom_gate__, imm_value := 0 }]
      (by decide)).1.mp ⟨_, rfl⟩⟩

/-- C14 (as stated, refuted): a custom gate `measz` typed `readout`, without a
classical destination and without any operand, is not passed on: the decomposer
reads the first operand of an empty operand vector; and a custom gate `MeasZ`
with qubit operand 4 comes out with the name `measz`, so the output instruction
differs from the instruction that was given. -/
theorem measurement_without_destination_counterexample :
    decompose_instructions
        [{ name := "measz", operands := [], creg_operands := [],
           type := .__custom_gate__, imm_value := 0 }] []
        { instruction_settings := fun n => if n = "measz" then some "readout" else none,
          get_instruction_name := fun n => n, hardware_settings := fun _ => none }
      = .error (.undefined "iopers[0] of an empty vector")
    ∧ decompose_instructions
        [{ name := "MeasZ", operands := [4], creg_operands := [],
           type := .__custom_gate__, imm_value := 0 }] []
        { instruction_settings := fun n => if n = "measz" then some "readout" else none,
          get_instruction_name := fun n => n, hardware_settings := fun _ => none }
      = .ok [{ name := "measz", operands := [4], creg_operands := [],
               type := .__custom_gate__, imm_value := 0 }] := by
  constructor <;> rfl

/-- C14 (amended): for every custom-gate instruction typed `readout` that has
at least one operand and no classical destination operand, decompose applied to
the one-instruction sequence does not fail and returns exactly one instruction,
the original with its name lower-cased; no move is synthesized. -/
theorem measurement_without_destination (platform : quantum_platform) (ins : gate)
    (hcustom : ins.type = .__custom_gate__)
    (hreadout : platform.instruction_settings (lower_case ins.name) = some "readout")
    (hoperand : ins.operands ≠ [])
    (hdest : ins.creg_operands = []) :
    decompose_instructions [ins] [] platform
      = .ok [{ ins with name := lower_case ins.name }] := by
  have hc : ins.type ≠ .__classical_gate__ := by
    rw [hcustom]
    decide
  rw [decompose_instructions]
  by_cases hw : lower_case ins.name = "wait"
  · rw [decompose_instruction_wait [] ins platform hc hw]
    rfl
  · obtain ⟨Q, qs, ho⟩ := List.exists_cons_of_ne_nil hoperand
    rw [decompose_instruction_measure [] ins platform Q qs hw hreadout ho hcustom hdest]
    rfl

/-- C14 (amended), at `measure q3` without destination register. -/
theorem measurement_without_destination_witness :
    decompose_instructions
        [{ name := "measure", operands := [3], creg_operands := [],
           type := .__custom_gate__, imm_value := 0 }] []
        { instruction_settings := fun n => if n = "measure" then some "readout" else none,
          get_instruction_name := fun n => n, hardware_settings := fun _ => none }
      = .ok [{ name := "measure", operands := [3], creg_operands := [],
               type := .__custom_gate__, imm_value := 0 }] :=
  measurement_without_destination
    { instruction_settings := fun n => if n = "measure" then some "readout" else none,
      get_instruction_name := fun n => n, hardware_settings := fun _ => none }
    { name := "measure", operands := [3], creg_operands := [],
      type := .__custom_gate__, imm_value := 0 }
    rfl rfl (by decide) rfl

/-- C18 (as stated, refuted): the custom gate `X`, typed `mw` under `x`, comes
out as an instruction named `x`, which is not a synthesized move and is not
among the input instructions. -/
theorem decomposition_homomorphism_counterexample :
    decompose_instructions
        [{ name := "X", operands := [0], creg_operands := [],
           type := .__custom_gate__, imm_value := 0 }] []
        { instruction_settings := fun n => if n = "x" then some "mw" else none,
          get_instruction_name := fun n => n, hardware_settings := fun _ => none }
      = .ok [{ name := "x", operands := [0], creg_operands := [],
               type := .__custom_gate__, imm_value := 0 }]
    ∧ ({ name := "x", operands := [0], creg_operands := [],
         type := .__custom_gate__, imm_value := 0 } : gate)
      ∉ [({ name := "X", operands := [0], creg_operands := [],
            type := .__custom_gate__, imm_value := 0 } : gate)] := by
  constructor
  · rfl
  · decide

/-- C18 (amended): whenever decompose succeeds on `a` and on `b`, it succeeds
on `a ++ b` with the output of `a` followed by the output of `b`. The output for
`a` is the concatenation, in input order, of the outputs of decompose for each
single instruction of `a`, and each of these is empty (a classical instruction),
or the instruction itself with its name lower-cased, or, for a measurement with
a classical destination, that instruction directly followed by the move
synthesized from it. The output has at most twice as many instructions as the
input. -/
theorem decomposition_homomorphism (platform : quantum_platform) (a b da db : List gate)
    (ha : decompose_instructions a [] platform = .ok da)
    (hb : decompose_instructions b [] platform = .ok db) :
    decompose_instructions (a ++ b) [] platform = .ok (da ++ db)
    ∧ (∃ parts : List (List gate),
        List.Forall₂ (fun ins part =>
          decompose_instructions [ins] [] platform = .ok part
          ∧ ((ins.type = .__classical_gate__ ∧ part = [])
            ∨ (ins.type ≠ .__classical_gate__
              ∧ part = [{ ins with name := lower_case ins.name }])
            ∨ (ins.type = .__custom_gate__ ∧ ∃ R Q rs qs,
                ins.creg_operands = R :: rs ∧ ins.operands = Q :: qs
                ∧ part = [{ ins with name := lower_case ins.name },
                          { name := "fmr", operands := [R, Q], creg_operands := [],
                            type := .__classical_gate__, imm_value := 0 }]))) a parts
        ∧ da = parts.flatten)
    ∧ da.length ≤ 2 * a.length := by
  have hparts : ∀ ckt out, decompose_instructions ckt [] platform = .ok out →
      ∃ parts : List (List gate),
        (∀ d, decompose_instructions ckt d platform = .ok (d ++ parts.flatten))
        ∧ List.Forall₂ (fun ins part =>
            (∀ d, decompose_instruction d ins platform = .ok (d ++ part))
            ∧ decomposed_part ins part) ckt parts
        ∧ out = parts.flatten := by
    intro ckt out hout
    rcases decompose_instructions_parts platform ckt with
      ⟨parts, hp, hall, _⟩ | ⟨msg, herr, _⟩ | ⟨what, herr, _⟩
    · refine ⟨parts, hp, hall, ?_⟩
      rw [hp] at hout
      simpa using (Except.ok.inj hout).symm
    · rw [herr] at hout
      cases hout
    · rw [herr] at hout
      cases hout
  obtain ⟨pa, hpa, halla, hda⟩ := hparts a da ha
  obtain ⟨pb, hpb, _, hdb⟩ := hparts b db hb
  refine ⟨?_, ⟨pa, ?_, hda⟩, ?_⟩
  · rw [decompose_instructions_append, ha]
    simp only
    rw [hpb, hdb]
  · refine List.Forall₂.imp ?_ halla
    intro ins part ⟨hstep, hshape⟩
    refine ⟨?_, hshape⟩
    rw [decompose_instructions, hstep]
    rfl
  · rw [hda]
    exact flatten_length_le platform a pa halla

/-- C18 (amended), at `a` = a gate `H` and a classical `add`, `b` = a measurement
`Measure q2 -> r5`: the outputs are `[h]` and `[measure, fmr [5, 2]]`, and the
output for `a ++ b` is their concatenation. -/
theorem decomposition_homomorphism_witness :
    decompose_instructions
        ([{ name := "H", operands := [1], creg_operands := [],
            type := .__custom_gate__, imm_value := 0 },
          { name := "add", operands := [0, 1, 2], creg_operands := [],
            type := .__classical_gate__, imm_value := 0 }]
         ++ [{ name := "Measure", operands := [2], creg_operands := [5],
               type := .__custom_gate__, imm_value := 0 }]) []
        { instruction_settings := fun n =>
            if n = "measure" then some "readout" else if n = "h" then some "mw" else none,
          get_instruction_name := fun n => n, hardware_settings := fun _ => none }
      = .ok ([{ name := "h", operands := [1], creg_operands := [],
                type := .__custom_gate__, imm_value := 0 }]
             ++ [{ name := "measure", operands := [2], creg_operands := [5],
                   type := .__custom_gate__, imm_value := 0 },
                 { name := "fmr", operands := [5, 2], creg_operands := [],
                   type := .__classical_gate__, imm_value := 0 }]) :=
  (decomposition_homomorphism
    { instruction_settings := fun n =>
        if n = "measure" then some "readout" else if n = "h" then some "mw" else none,
      get_instruction_name := fun n => n, hardware_settings := fun _ => none }
    [{ name := "H", operands := [1], creg_operands := [],
       type := .__custom_gate__, imm_value := 0 },
     { name := "add", operands := [0, 1, 2], creg_operands := [],
       type := .__classical_gate__, imm_value := 0 }]
    [{ name := "Measure", operands := [2], creg_operands := [5],
       type := .__custom_gate__, imm_value := 0 }]
    [{ name := "h", operands := [1], creg_operands := [],
       type := .__custom_gate__, imm_value := 0 }]
    [{ name := "measure", operands := [2], creg_operands := [5],
       type := .__custom_gate__, imm_value := 0 },
     { name := "fmr", operands := [5, 2], creg_operands := [],
       type := .__classical_gate__, imm_value := 0 }]
    rfl rfl).1


/-! ## Program compilation: properties -/

/-- C15: compiling an empty kernel list fails with the fatal error of line 47,
whatever the program name, the scheduler and the platform: also for a platform
whose hardware settings are missing, whose loading would fail itself, so the
rejection comes before the settings are loaded; the result is an error and
carries no text. -/
theorem empty_program_rejected (cc_light_schedule_rc : scheduler) (prog_name : String)
    (platform : quantum_platform) :
    compile cc_light_schedule_rc prog_name [] platform
      = .error (.fatal "Trying to compile empty kernel")
    ∧ ∀ text, compile cc_light_schedule_rc prog_name [] platform ≠ .ok text := by
  have h : compile cc_light_schedule_rc prog_name [] platform
      = .error (.fatal "Trying to compile empty kernel") := by
    simp [compile]
  refine ⟨h, ?_⟩
  intro text htext
  rw [h] at htext
  cases htext

theorem string_join_acc (l : List String) :
    ∀ acc : String, List.foldl (fun r s => r ++ s) acc l = acc ++ String.join l := by
  induction l with
  | nil =>
    intro acc
    simp [String.join]
  | cons a l ih =>
    intro acc
    rw [String.join, List.foldl_cons, List.foldl_cons, ih, ih ("" ++ a)]
    simp [String.append_assoc]

theorem string_join_cons (a : String) (l : List String) :
    String.join (a :: l) = a ++ String.join l := by
  rw [String.join, List.foldl_cons, string_join_acc]
  simp

/-- The text that one kernel contributes to the program, as a relation between
the kernel and the text: the kernel-name comment, the prologue, the bundle code
(nothing for an empty circuit, otherwise the code generated for the scheduled
bundles of the decomposed circuit) and the epilogue. -/
theorem kernel2cccode_ok (cc_light_schedule_rc : scheduler) (platform : quantum_platform)
    (qubit_number : Nat) (cccode out : String) (kernel : quantum_kernel)
    (h : kernel2cccode cc_light_schedule_rc platform qubit_number cccode kernel = .ok out) :
    ∃ prologue code epilogue : String,
      get_prologue kernel = .ok prologue
      ∧ get_epilogue kernel = .ok epilogue
      ∧ (kernel.c = [] → code = "")
      ∧ (kernel.c ≠ [] → ∃ decomp_ckt,
          decompose_instructions kernel.c [] platform = .ok decomp_ckt
          ∧ bundles2cccode
              (cc_light_schedule_rc decomp_ckt platform qubit_number kernel.creg_count)
              platform = .ok code)
      ∧ out = cccode ++ ("# Kernel:  " ++ kernel.name ++ "\n" ++ prologue ++ code ++ epilogue) := by
  unfold kernel2cccode at h
  simp only [verbose, if_true, endl] at h
  cases hpro : get_prologue kernel with
  | error e => simp [hpro] at h
  | ok prologue =>
    simp only [hpro] at h
    by_cases hc : kernel.c = []
    · simp only [hc, ne_eq, not_true_eq_false, if_false] at h
      cases hepi : get_epilogue kernel with
      | error e => simp [hepi] at h
      | ok epilogue =>
        simp only [hepi, Except.ok.injEq] at h
        refine ⟨prologue, "", epilogue, rfl, rfl, fun _ => rfl, fun hne => absurd hc hne, ?_⟩
        rw [← h]
        simp [String.append_assoc]
    · simp only [ne_eq, hc, not_false_eq_true, if_true] at h
      cases hdec : decompose_instructions kernel.c [] platform with
      | error e => simp [hdec] at h
      | ok decomp_ckt =>
        simp only [hdec] at h
        cases hgen : bundles2cccode
            (cc_light_schedule_rc decomp_ckt platform qubit_number kernel.creg_count)
            platform with
        | error e => simp [hgen] at h
        | ok code =>
          simp only [hgen] at h
          cases hepi : get_epilogue kernel with
          | error e => simp [hepi] at h
          | ok epilogue =>
            simp only [hepi, Except.ok.injEq] at h
            refine ⟨prologue, code, epilogue, rfl, rfl, fun h0 => absurd h0 hc,
              fun _ => ⟨decomp_ckt, rfl, hgen⟩, ?_⟩
            rw [← h]
            simp [String.append_assoc]

theorem kernels2cccode_ok (cc_light_schedule_rc : scheduler) (platform : quantum_platform)
    (qubit_number : Nat) (kernels : List quantum_kernel) :
    ∀ cccode out : String,
      kernels2cccode cc_light_schedule_rc platform qubit_number kernels cccode = .ok out →
      ∃ bodies : List String,
        List.Forall₂ (fun kernel body =>
          ∃ prologue code epilogue : String,
            get_prologue kernel = .ok prologue
            ∧ get_epilogue kernel = .ok epilogue
            ∧ (kernel.c = [] → code = "")
            ∧ (kernel.c ≠ [] → ∃ decomp_ckt,
                decompose_instructions kernel.c [] platform = .ok decomp_ckt
                ∧ bundles2cccode
                    (cc_light_schedule_rc decomp_ckt platform qubit_number kernel.creg_count)
                    platform = .ok code)
            ∧ body = "# Kernel:  " ++ kernel.name ++ "\n" ++ prologue ++ code ++ epilogue)
          kernels bodies
        ∧ out = cccode ++ String.join bodies := by
  induction kernels with
  | nil =>
    intro cccode out h
    simp only [kernels2cccode, Except.ok.injEq] at h
    exact ⟨[], List.Forall₂.nil, by rw [← h]; simp [String.join]⟩
  | cons kernel rest ih =>
    intro cccode out h
    rw [kernels2cccode] at h
    cases hk : kernel2cccode cc_light_schedule_rc platform qubit_number cccode kernel with
    | error e => simp [hk] at h
    | ok cccode1 =>
      simp only [hk] at h
      obtain ⟨prologue, code, epilogue, h1, h2, h3, h4, h5⟩ :=
        kernel2cccode_ok cc_light_schedule_rc platform qubit_number cccode cccode1 kernel hk
      obtain ⟨bodies, hall, hout⟩ := ih cccode1 out h
      refine ⟨_ :: bodies, List.Forall₂.cons ⟨prologue, code, epilogue, h1, h2, h3, h4, rfl⟩ hall,
        ?_⟩
      rw [hout, h5, string_join_cons, String.append_assoc]

/-- C16: for every non-empty kernel list on which compile succeeds, with the
scheduler a given function, the produced text is the three-line header comment
block naming the program, followed, for each kernel in list order, by its
kernel-name comment, its prologue, its bundle code and its epilogue, followed by
the final line of 8 spaces and `stop`. The bundle code is nothing for a kernel
with an empty circuit, and otherwise the code generated for the bundles that the
scheduler returns for the decomposed circuit, the qubit count of the platform
and the register count of the kernel. -/
theorem program_text_structure (cc_light_schedule_rc : scheduler) (prog_name : String)
    (kernels : List quantum_kernel) (platform : quantum_platform) (text : String)
    (hkernels : kernels ≠ [])
    (hrun : compile cc_light_schedule_rc prog_name kernels platform = .ok text) :
    ∃ (qubit_number : Nat) (bodies : List String),
      platform.hardware_settings "qubit_number" = some qubit_number
      ∧ List.Forall₂ (fun kernel body =>
          ∃ prologue code epilogue : String,
            get_prologue kernel = .ok prologue
            ∧ get_epilogue kernel = .ok epilogue
            ∧ (kernel.c = [] → code = "")
            ∧ (kernel.c ≠ [] → ∃ decomp_ckt,
                decompose_instructions kernel.c [] platform = .ok decomp_ckt
                ∧ bundles2cccode
                    (cc_light_schedule_rc decomp_ckt platform qubit_number kernel.creg_count)
                    platform = .ok code)
            ∧ body = "# Kernel:  " ++ kernel.name ++ "\n" ++ prologue ++ code ++ epilogue)
          kernels bodies
      ∧ text = "# Program: '" ++ prog_name ++ "'" ++ "\n"
          ++ "# Note:    generated by OpenQL Central Controller backend" ++ "\n"
          ++ "#" ++ "\n"
          ++ String.join bodies
          ++ "        stop\n" := by
  unfold compile at hrun
  have hlen : ¬ kernels.length = 0 := by
    intro h0
    exact hkernels (List.length_eq_zero.mp h0)
  rw [if_neg hlen] at hrun
  cases hq : platform.hardware_settings "qubit_number" with
  | none => simp [load_hw_settings, hq] at hrun
  | some qubit_number =>
    cases hcy : platform.hardware_settings "cycle_time" with
    | none => simp [load_hw_settings, hq, hcy] at hrun
    | some cycle_time =>
      simp only [load_hw_settings, hq, hcy, endl] at hrun
      cases hloop : kernels2cccode cc_light_schedule_rc platform qubit_number kernels
          ("# Program: '" ++ prog_name ++ "'" ++ "\n"
            ++ "# Note:    generated by OpenQL Central Controller backend" ++ "\n"
            ++ "#" ++ "\n") with
      | error e => simp [hloop] at hrun
      | ok cccode =>
        simp only [hloop, Except.ok.injEq] at hrun
        obtain ⟨bodies, hall, hout⟩ :=
          kernels2cccode_ok cc_light_schedule_rc platform qubit_number kernels _ cccode hloop
        refine ⟨qubit_number, bodies, rfl, hall, ?_⟩
        rw [← hrun, hout]
        have hstop : "        " ++ ("stop" ++ "\n") = "        stop\n" := by decide
        simp only [emit, endl, String.length, List.length_nil, if_true, String.append_assoc, hstop]

/-- C16, at a program of two kernels, a for-start kernel with an empty circuit
and a plain kernel that holds the gate `X q0`, with a scheduler that puts every
instruction into a bundle of its own. -/
theorem program_text_structure_witness :
    compile
        (fun ckt _ _ _ => ckt.map fun g =>
          { start_cycle := 0, duration_in_cycles := 1, parallel_sections := [[g]] })
        "demo"
        [{ name := "sp1_for1_start", type := .FOR_START, iterations := 3,
           br_condition := { op0 := 0, op1 := 0, operation_name := "" },
           c := [], creg_count := 0 },
         { name := "body", type := .STATIC, iterations := 0,
           br_condition := { op0 := 0, op1 := 0, operation_name := "" },
           c := [{ name := "X", operands := [0], creg_operands := [],
                   type := .__custom_gate__, imm_value := 0 }],
           creg_count := 0 }]
        { instruction_settings := fun n => if n = "x" then some "mw" else none,
          get_instruction_name := fun n => n,
          hardware_settings := fun key =>
            if key = "qubit_number" then some 7
            else if key = "cycle_time" then some 20 else none }
      = .ok ("# Program: 'demo'\n"
          ++ "# Note:    generated by OpenQL Central Controller backend\n"
          ++ "#\n"
          ++ "# Kernel:  sp1_for1_start\n"
          ++ "# FOR_START(3)\n"
          ++ "sp1:    move    3,R63           # R63 is the 'for loop counter'\n"
          ++ "# Kernel:  body\n"
          ++ "# x 0   \n\n"
          ++ "        stop\n")
    ∧ ∃ bodies : List String, bodies.length = 2
        ∧ "# Program: 'demo'\n"
            ++ "# Note:    generated by OpenQL Central Controller backend\n"
            ++ "#\n"
            ++ "# Kernel:  sp1_for1_start\n"
            ++ "# FOR_START(3)\n"
            ++ "sp1:    move    3,R63           # R63 is the 'for loop counter'\n"
            ++ "# Kernel:  body\n"
            ++ "# x 0   \n\n"
            ++ "        stop\n"
          = "# Program: '" ++ "demo" ++ "'" ++ "\n"
            ++ "# Note:    generated by OpenQL Central Controller backend" ++ "\n"
            ++ "#" ++ "\n"
            ++ String.join bodies
            ++ "        stop\n" :=
  ⟨rfl,
   match program_text_structure
      (fun ckt _ _ _ => ckt.map fun g =>
        { start_cycle := 0, duration_in_cycles := 1, parallel_sections := [[g]] })
      "demo"
      [{ name := "sp1_for1_start", type := .FOR_START, iterations := 3,
         br_condition := { op0 := 0, op1 := 0, operation_name := "" },
         c := [], creg_count := 0 },
       { name := "body", type := .STATIC, iterations := 0,
         br_condition := { op0 := 0, op1 := 0, operation_name := "" },
         c := [{ name := "X", operands := [0], creg_operands := [],
                 type := .__custom_gate__, imm_value := 0 }],
         creg_count := 0 }]
      { instruction_settings := fun n => if n = "x" then some "mw" else none,
        get_instruction_name := fun n => n,
        hardware_settings := fun key =>
          if key = "qubit_number" then some 7
          else if key = "cycle_time" then some 20 else none }
      _ (by simp) rfl with
   | ⟨_, bodies, _, hall, htext⟩ => ⟨bodies, hall.length_eq.symm, htext⟩⟩

/-! ## Code generator: line breaks -/

theorem line_breaks_append (a b : String) :
    line_breaks (a ++ b) = line_breaks a + line_breaks b := by
  simp [line_breaks, String.data_append, List.count_append]

theorem line_breaks_spaces (n : Nat) : line_breaks (spaces n) = 0 := by
  simp [line_breaks, spaces, List.count_replicate]

theorem digitChar_ne_newline (d : Nat) (h : d < 10) : Nat.digitChar d ≠ '\n' := by
  interval_cases d <;> decide

theorem toDigitsCore_no_newline (fuel : Nat) :
    ∀ (n : Nat) (ds : List Char), (∀ c ∈ ds, c ≠ '\n') →
      ∀ c ∈ Nat.toDigitsCore 10 fuel n ds, c ≠ '\n' := by
  induction fuel with
  | zero =>
    intro n ds hds c hc
    simp only [Nat.toDigitsCore] at hc
    exact hds c hc
  | succ fuel ih =>
    intro n ds hds c hc
    simp only [Nat.toDigitsCore] at hc
    have hd : ∀ x ∈ Nat.digitChar (n % 10) :: ds, x ≠ '\n' := by
      intro x hx
      rcases List.mem_cons.mp hx with hx | hx
      · rw [hx]
        exact digitChar_ne_newline _ (Nat.mod_lt _ (by decide))
      · exact hds x hx
    split at hc
    · exact hd c hc
    · exact ih _ _ hd c hc

theorem line_breaks_dec (n : Nat) : line_breaks (dec n) = 0 := by
  rw [line_breaks, List.count_eq_zero]
  intro hmem
  simp only [dec, Nat.repr, Nat.toDigits, List.asString] at hmem
  exact toDigitsCore_no_newline _ _ _ (by simp) _ hmem rfl

theorem line_breaks_comment_line (comment : String) :
    line_breaks (comment_line comment) = line_breaks comment + 1 := by
  rw [comment_line, line_breaks_append, line_breaks_append, line_breaks_spaces]
  rfl

theorem line_breaks_classical_operands (ops : List Nat) :
    ∀ ss, line_breaks (classical_operands ss ops) = line_breaks ss := by
  induction ops with
  | nil =>
    intro ss
    rfl
  | cons op rest ih =>
    intro ss
    cases rest with
    | nil =>
      simp only [classical_operands, line_breaks_append, line_breaks_dec]
      rfl
    | cons r rest =>
      have step : classical_operands ss (op :: r :: rest)
          = classical_operands (ss ++ " r" ++ dec op ++ ",") (r :: rest) := rfl
      rw [step, ih]
      simp only [line_breaks_append, line_breaks_dec]
      rfl

theorem line_breaks_classical (g : gate) (code : String)
    (h : classical_instruction2cccode g = .ok code) :
    line_breaks code = line_breaks g.name := by
  by_cases hm : g.name ∈ classical_opcodes
  · simp only [classical_instruction2cccode] at h
    split at h
    · simp only [Except.ok.injEq] at h
      rw [← h, line_breaks_classical_operands, line_breaks_append]
      simp [line_breaks]
    · cases h
  · rw [classical_instruction2cccode_error g hm] at h
    cases h

theorem line_breaks_instruction (platform : quantum_platform) (ssinst out : String)
    (instr : gate)
    (hname : line_breaks (platform.get_instruction_name instr.name) = 0)
    (h : instruction2cccode platform ssinst instr = .ok out) :
    line_breaks out = line_breaks ssinst + (if is_normal instr then 1 else 0) := by
  by_cases hnop : instr.type = .__nop_gate__
  · simp only [instruction2cccode, if_pos hnop, Except.ok.injEq] at h
    rw [← h, line_breaks_append, hname]
    simp [is_normal, hnop]
  · by_cases hclassical : instr.type = .__classical_gate__
    · simp only [instruction2cccode, if_neg hnop, if_pos hclassical] at h
      cases h
    · have hnormal : is_normal instr = true := by simp [is_normal, hnop, hclassical]
      have hone : line_breaks "# " = 0 ∧ line_breaks " " = 0 ∧ line_breaks "," = 0 := by decide
      by_cases h1 : instr.operands.length = 1
      · obtain ⟨a, ha⟩ := List.length_eq_one.mp h1
        rw [instruction2cccode_one platform ssinst instr a hnop hclassical ha] at h
        simp only [Except.ok.injEq] at h
        rw [← h, hnormal, line_breaks_append, line_breaks_comment_line]
        simp only [line_breaks_append, line_breaks_dec, hname, hone.1, hone.2.1, if_true]
      · by_cases h2 : instr.operands.length = 2
        · obtain ⟨a, b, hab⟩ := List.length_eq_two.mp h2
          rw [instruction2cccode_two platform ssinst instr a b hnop hclassical hab] at h
          simp only [Except.ok.injEq] at h
          rw [← h, hnormal, line_breaks_append, line_breaks_comment_line]
          simp only [line_breaks_append, line_breaks_dec, hname, hone.1, hone.2.1, hone.2.2,
            if_true]
        · rw [instruction2cccode_arity platform ssinst instr hnop hclassical h1 h2] at h
          cases h

theorem line_breaks_section_instructions (platform : quantum_platform) (sect : List gate) :
    ∀ ssinst out : String,
      (∀ g ∈ sect, line_breaks (platform.get_instruction_name g.name) = 0) →
      section_instructions2cccode platform sect ssinst = .ok out →
      line_breaks out = line_breaks ssinst + sect.countP is_normal := by
  induction sect with
  | nil =>
    intro ssinst out _ h
    simp only [section_instructions2cccode, Except.ok.injEq] at h
    rw [← h]
    simp
  | cons instr rest ih =>
    intro ssinst out hnames h
    rw [section_instructions2cccode] at h
    cases hstep : instruction2cccode platform ssinst instr with
    | error e => simp [hstep] at h
    | ok ssinst1 =>
      simp only [hstep] at h
      rw [ih ssinst1 out (fun g hg => hnames g (List.mem_cons_of_mem _ hg)) h,
        line_breaks_instruction platform ssinst ssinst1 instr
          (hnames instr (List.mem_cons_self _ _)) hstep,
        List.countP_cons]
      omega

theorem line_breaks_section (platform : quantum_platform) (sect : List gate)
    (ssinst out : String)
    (hnames : ∀ g ∈ sect, line_breaks g.name = 0
      ∧ line_breaks (platform.get_instruction_name g.name) = 0)
    (h : section2cccode platform ssinst sect = .ok out) :
    line_breaks out = line_breaks ssinst + sect.countP is_normal := by
  cases sect with
  | nil => simp [section2cccode] at h
  | cons first rest =>
    by_cases hclassical : first.type = .__classical_gate__
    · simp only [section2cccode, if_pos hclassical] at h
      split at h
      · cases h
      · rename_i hlen
        have hrest : rest = [] := by
          simpa using hlen
        subst hrest
        cases hcode : classical_instruction2cccode first with
        | error e => simp [hcode] at h
        | ok code =>
          simp only [hcode, Except.ok.injEq] at h
          rw [← h, line_breaks_append, line_breaks_classical first code hcode,
            (hnames first (List.mem_cons_self _ _)).1]
          simp [is_normal, hclassical]
    · simp only [section2cccode, if_neg hclassical] at h
      exact line_breaks_section_instructions platform (first :: rest) ssinst out
        (fun g hg => (hnames g hg).2) h

theorem line_breaks_parallel_sections (platform : quantum_platform)
    (sections : List (List gate)) :
    ∀ ssinst out : String,
      (∀ sect ∈ sections, ∀ g ∈ sect, line_breaks g.name = 0
        ∧ line_breaks (platform.get_instruction_name g.name) = 0) →
      parallel_sections2cccode platform sections ssinst = .ok out →
      line_breaks out
        = line_breaks ssinst + (sections.map fun sect => sect.countP is_normal).sum := by
  induction sections with
  | nil =>
    intro ssinst out _ h
    simp only [parallel_sections2cccode, Except.ok.injEq] at h
    rw [← h]
    simp
  | cons sect rest ih =>
    intro ssinst out hnames h
    rw [parallel_sections2cccode] at h
    cases hstep : section2cccode platform ssinst sect with
    | error e => simp [hstep] at h
    | ok ssinst1 =>
      simp only [hstep] at h
      rw [ih ssinst1 out (fun s hs => hnames s (List.mem_cons_of_mem _ hs)) h,
        line_breaks_section platform sect ssinst ssinst1
          (hnames sect (List.mem_cons_self _ _)) hstep,
        List.map_cons, List.sum_cons]
      omega

theorem line_breaks_bundles_loop (platform : quantum_platform) (bundles : List bundle_t) :
    ∀ st st' : codegen_state,
      (∀ b ∈ bundles, ∀ sect ∈ b.parallel_sections, ∀ g ∈ sect, line_breaks g.name = 0
        ∧ line_breaks (platform.get_instruction_name g.name) = 0) →
      bundles_loop platform bundles st = .ok st' →
      line_breaks st'.ssbundles
        = line_breaks st.ssbundles + bundles.length + normal_instructions bundles := by
  induction bundles with
  | nil =>
    intro st st' _ h
    simp only [bundles_loop, Except.ok.injEq] at h
    rw [← h]
    simp [normal_instructions]
  | cons bundle rest ih =>
    intro st st' hnames h
    rw [bundles_loop] at h
    cases hstep : bundle2cccode platform st bundle with
    | error e => simp [hstep] at h
    | ok st1 =>
      simp only [hstep] at h
      have hrest := ih st1 st' (fun b hb => hnames b (List.mem_cons_of_mem _ hb)) h
      unfold bundle2cccode at hstep
      cases hsec : parallel_sections2cccode platform bundle.parallel_sections "" with
      | error e => simp [hsec] at hstep
      | ok ssinst =>
        simp only [hsec, Except.ok.injEq] at hstep
        have hinst := line_breaks_parallel_sections platform bundle.parallel_sections "" ssinst
          (hnames bundle (List.mem_cons_self _ _)) hsec
        have h1 : line_breaks st1.ssbundles
            = line_breaks st.ssbundles + line_breaks ssinst + 1 := by
          rw [← hstep]
          simp only [line_breaks_append]
          have h0 : line_breaks "" = 0 ∧ line_breaks "\n" = 1 := by decide
          rw [h0.1, h0.2]
          omega
        have h00 : line_breaks "" = 0 := by decide
        rw [hrest, h1, hinst, h00]
        simp only [normal_instructions, List.map_cons, List.sum_cons, List.length_cons]
        omega

/-- C17 (as stated, refuted): for the single bundle that holds the gate `x q0`
the generator succeeds and the text has two line breaks, one that ends the
comment line of the gate and one that ends the bundle. -/
theorem one_line_per_bundle_counterexample :
    bundles2cccode
        [{ start_cycle := 0, duration_in_cycles := 1,
           parallel_sections :=
             [[{ name := "x", operands := [0], creg_operands := [],
                 type := .__custom_gate__, imm_value := 0 }]] }]
        { instruction_settings := fun _ => none,
          get_instruction_name := fun n => n, hardware_settings := fun _ => none }
      = .ok "# x 0   \n\n"
    ∧ line_breaks "# x 0   \n\n" = 2
    ∧ [({ start_cycle := 0, duration_in_cycles := 1,
          parallel_sections :=
            [[{ name := "x", operands := [0], creg_operands := [],
                type := .__custom_gate__, imm_value := 0 }]] } : bundle_t)].length = 1 := by
  refine ⟨rfl, ?_, rfl⟩
  decide

/-- C17 (amended): for every bundle sequence on which the generator succeeds,
and in which no instruction name and no resolved platform name holds a line
break, the number of line breaks in the emitted text equals the number of
bundles plus the number of normal instructions (neither no-op nor classical) in
the bundles: one line per bundle and one comment line per normal instruction. -/
theorem one_line_per_bundle (platform : quantum_platform) (bundles : List bundle_t)
    (text : String)
    (hnames : ∀ b ∈ bundles, ∀ sect ∈ b.parallel_sections, ∀ g ∈ sect,
      '\n' ∉ g.name.data ∧ '\n' ∉ (platform.get_instruction_name g.name).data)
    (hrun : bundles2cccode bundles platform = .ok text) :
    text.data.count '\n'
      = bundles.length
        + (bundles.map fun b =>
            (b.parallel_sections.map fun sect =>
              sect.countP fun g =>
                decide (g.type ≠ .__nop_gate__ ∧ g.type ≠ .__classical_gate__)).sum).sum := by
  unfold bundles2cccode at hrun
  cases hloop : bundles_loop platform bundles codegen_init with
  | error e => simp [hloop] at hrun
  | ok st =>
    simp only [hloop, Except.ok.injEq] at hrun
    have hnames' : ∀ b ∈ bundles, ∀ sect ∈ b.parallel_sections, ∀ g ∈ sect,
        line_breaks g.name = 0 ∧ line_breaks (platform.get_instruction_name g.name) = 0 := by
      intro b hb sect hsect g hg
      obtain ⟨h1, h2⟩ := hnames b hb sect hsect g hg
      exact ⟨List.count_eq_zero.mpr h1, List.count_eq_zero.mpr h2⟩
    have h := line_breaks_bundles_loop platform bundles codegen_init st hnames' hloop
    rw [← hrun]
    have h0 : line_breaks codegen_init.ssbundles = 0 := by decide
    rw [h0, Nat.zero_add] at h
    exact h

/-- C17 (amended), at two bundles, the first with the gates `x q0` and
`cz q1, q2` in two sections, the second with the classical `add r0, r1, r2`:
four line breaks, two for the bundles and two for the normal instructions. -/
theorem one_line_per_bundle_witness :
    bundles2cccode
        [{ start_cycle := 0, duration_in_cycles := 1,
           parallel_sections :=
             [[{ name := "x", operands := [0], creg_operands := [],
                 type := .__custom_gate__, imm_value := 0 }],
              [{ name := "cz", operands := [1, 2], creg_operands := [],
                 type := .__custom_gate__, imm_value := 0 }]] },
         { start_cycle := 1, duration_in_cycles := 1,
           parallel_sections :=
             [[{ name := "add", operands := [0, 1, 2], creg_operands := [],
                 type := .__classical_gate__, imm_value := 0 }]] }]
        { instruction_settings := fun _ => none,
          get_instruction_name := fun n => n, hardware_settings := fun _ => none }
      = .ok "# x 0   \n# cz 1,2\n\nadd r0, r1, r2\n"
    ∧ "# x 0   \n# cz 1,2\n\nadd r0, r1, r2\n".data.count '\n' = 2 + 2 :=
  ⟨rfl,
   (one_line_per_bundle
      { instruction_settings := fun _ => none,
        get_instruction_name := fun n => n, hardware_settings := fun _ => none }
      [{ start_cycle := 0, duration_in_cycles := 1,
         parallel_sections :=
           [[{ name := "x", operands := [0], creg_operands := [],
               type := .__custom_gate__, imm_value := 0 }],
            [{ name := "cz", operands := [1, 2], creg_operands := [],
               type := .__custom_gate__, imm_value := 0 }]] },
       { start_cycle := 1, duration_in_cycles := 1,
         parallel_sections :=
           [[{ name := "add", operands := [0, 1, 2], creg_operands := [],
               type := .__classical_gate__, imm_value := 0 }]] }]
      "# x 0   \n# cz 1,2\n\nadd r0, r1, r2\n"
      (by decide) rfl).trans (by decide)⟩


/-! ## Code generator: exact success condition -/

theorem instruction2cccode_accepted (platform : quantum_platform) (ssinst : String)
    (instr : gate) (h : instruction_accepted instr) :
    ∃ out, instruction2cccode platform ssinst instr = .ok out := by
  obtain ⟨hclassical, harity⟩ := h
  by_cases hnop : instr.type = .__nop_gate__
  · simp only [instruction2cccode, if_pos hnop]
    exact ⟨_, rfl⟩
  · rcases harity hnop with h1 | h2
    · obtain ⟨a, ha⟩ := List.length_eq_one.mp h1
      exact ⟨_, instruction2cccode_one platform ssinst instr a hnop hclassical ha⟩
    · obtain ⟨a, b, hab⟩ := List.length_eq_two.mp h2
      exact ⟨_, instruction2cccode_two platform ssinst instr a b hnop hclassical hab⟩

theorem instruction2cccode_rejected (platform : quantum_platform) (ssinst : String)
    (instr : gate) (h : ¬ instruction_accepted instr) :
    ∃ e, instruction2cccode platform ssinst instr = .error e := by
  by_cases hclassical : instr.type = .__classical_gate__
  · have hnop : instr.type ≠ .__nop_gate__ := by
      rw [hclassical]
      decide
    simp only [instruction2cccode, if_neg hnop, if_pos hclassical]
    exact ⟨_, rfl⟩
  · by_cases hnop : instr.type = .__nop_gate__
    · exact absurd ⟨hclassical, fun hn => absurd hnop hn⟩ h
    · have h1 : instr.operands.length ≠ 1 := fun h1 => h ⟨hclassical, fun _ => Or.inl h1⟩
      have h2 : instr.operands.length ≠ 2 := fun h2 => h ⟨hclassical, fun _ => Or.inr h2⟩
      exact ⟨_, instruction2cccode_arity platform ssinst instr hnop hclassical h1 h2⟩

theorem section_instructions2cccode_iff (platform : quantum_platform) (sect : List gate) :
    ∀ ssinst, (∃ out, section_instructions2cccode platform sect ssinst = .ok out)
      ↔ ∀ g ∈ sect, instruction_accepted g := by
  induction sect with
  | nil =>
    intro ssinst
    simp [section_instructions2cccode]
  | cons instr rest ih =>
    intro ssinst
    rw [section_instructions2cccode]
    by_cases hacc : instruction_accepted instr
    · obtain ⟨ssinst1, h1⟩ := instruction2cccode_accepted platform ssinst instr hacc
      simp only [h1, ih ssinst1, List.mem_cons, forall_eq_or_imp, hacc, true_and]
    · obtain ⟨e, he⟩ := instruction2cccode_rejected platform ssinst instr hacc
      simp only [he, List.mem_cons, forall_eq_or_imp, hacc, false_and, iff_false]
      rintro ⟨out, hout⟩
      cases hout

theorem section2cccode_iff (platform : quantum_platform) (sect : List gate) (hne : sect ≠ [])
    (ssinst : String) :
    (∃ out, section2cccode platform ssinst sect = .ok out) ↔ section_accepted sect := by
  cases sect with
  | nil => exact absurd rfl hne
  | cons first rest =>
    by_cases hclassical : first.type = .__classical_gate__
    · have hright : ¬ ((∃ f r, first :: rest = f :: r ∧ f.type ≠ .__classical_gate__)
          ∧ ∀ g ∈ first :: rest, instruction_accepted g) := by
        rintro ⟨_, hall⟩
        exact (hall first (List.mem_cons_self _ _)).1 hclassical
      by_cases hlen : (first :: rest).length ≠ 1
      · have hrest : rest ≠ [] := by
          intro h0
          rw [h0] at hlen
          exact hlen rfl
        simp only [section2cccode, if_pos hclassical, if_pos hlen, section_accepted]
        constructor
        · rintro ⟨out, hout⟩
          cases hout
        · rintro (⟨g, hg, _⟩ | h)
          · exact absurd (List.cons.inj hg).2 hrest
          · exact absurd h hright
      · have hrest : rest = [] := by
          simpa using hlen
        subst hrest
        simp only [section2cccode, if_pos hclassical, if_neg hlen, section_accepted]
        by_cases hm : first.name ∈ classical_opcodes
        · rw [classical_instruction2cccode_ok first hm]
          exact ⟨fun _ => Or.inl ⟨first, rfl, hclassical, hm⟩, fun _ => ⟨_, rfl⟩⟩
        · rw [classical_instruction2cccode_error first hm]
          constructor
          · rintro ⟨out, hout⟩
            cases hout
          · rintro (⟨g, hg, _, hgm⟩ | h)
            · rw [← (List.cons.inj hg).1] at hgm
              exact absurd hgm hm
            · exact absurd h hright
    · simp only [section2cccode, if_neg hclassical, section_accepted]
      rw [section_instructions2cccode_iff]
      constructor
      · intro hall
        exact Or.inr ⟨⟨first, rest, rfl, hclassical⟩, hall⟩
      · rintro (⟨g, hg, hgc, _⟩ | ⟨_, hall⟩)
        · rw [← (List.cons.inj hg).1] at hgc
          exact absurd hgc hclassical
        · exact hall

theorem parallel_sections2cccode_iff (platform : quantum_platform)
    (sections : List (List gate)) (hne : [] ∉ sections) :
    ∀ ssinst, (∃ out, parallel_sections2cccode platform sections ssinst = .ok out)
      ↔ ∀ sect ∈ sections, section_accepted sect := by
  induction sections with
  | nil =>
    intro ssinst
    simp [parallel_sections2cccode]
  | cons sect rest ih =>
    intro ssinst
    have hsect : sect ≠ [] := fun h0 => hne (h0 ▸ List.mem_cons_self _ _)
    have hrest : [] ∉ rest := fun h0 => hne (List.mem_cons_of_mem _ h0)
    rw [parallel_sections2cccode]
    by_cases hacc : section_accepted sect
    · obtain ⟨ssinst1, h1⟩ := (section2cccode_iff platform sect hsect ssinst).mpr hacc
      simp only [h1, ih hrest ssinst1, List.mem_cons, forall_eq_or_imp, hacc, true_and]
    · cases hstep : section2cccode platform ssinst sect with
      | ok out => exact absurd ((section2cccode_iff platform sect hsect ssinst).mp ⟨out, hstep⟩) hacc
      | error e =>
        simp only [List.mem_cons, forall_eq_or_imp, hacc, false_and, iff_false]
        rintro ⟨out, hout⟩
        cases hout

theorem bundle2cccode_iff (platform : quantum_platform) (bundle : bundle_t)
    (hne : [] ∉ bundle.parallel_sections) (st : codegen_state) :
    (∃ st', bundle2cccode platform st bundle = .ok st')
      ↔ ∀ sect ∈ bundle.parallel_sections, section_accepted sect := by
  rw [← parallel_sections2cccode_iff platform bundle.parallel_sections hne ""]
  unfold bundle2cccode
  cases parallel_sections2cccode platform bundle.parallel_sections "" with
  | error e =>
    constructor
    · rintro ⟨st', h⟩
      cases h
    · rintro ⟨out, h⟩
      cases h
  | ok ssinst => exact ⟨fun _ => ⟨_, rfl⟩, fun _ => ⟨_, rfl⟩⟩

theorem bundles_loop_iff (platform : quantum_platform) (bundles : List bundle_t)
    (hne : ∀ b ∈ bundles, [] ∉ b.parallel_sections) :
    ∀ st, (∃ st', bundles_loop platform bundles st = .ok st')
      ↔ ∀ b ∈ bundles, ∀ sect ∈ b.parallel_sections, section_accepted sect := by
  induction bundles with
  | nil =>
    intro st
    simp [bundles_loop]
  | cons bundle rest ih =>
    intro st
    have hb : [] ∉ bundle.parallel_sections := hne bundle (List.mem_cons_self _ _)
    have hrest : ∀ b ∈ rest, [] ∉ b.parallel_sections :=
      fun b h => hne b (List.mem_cons_of_mem _ h)
    rw [bundles_loop]
    by_cases hacc : ∀ sect ∈ bundle.parallel_sections, section_accepted sect
    · obtain ⟨st1, h1⟩ := (bundle2cccode_iff platform bundle hb st).mpr hacc
      simp only [h1, ih hrest st1, List.mem_cons, forall_eq_or_imp]
      exact ⟨fun h => ⟨hacc, h⟩, fun h => h.2⟩
    · cases hstep : bundle2cccode platform st bundle with
      | ok st1 => exact absurd ((bundle2cccode_iff platform bundle hb st).mp ⟨st1, hstep⟩) hacc
      | error e =>
        simp only [List.mem_cons, forall_eq_or_imp, hacc, false_and, iff_false]
        rintro ⟨out, hout⟩
        cases hout

theorem section_accepted_iff (sect : List gate) :
    section_accepted sect
      ↔ ((∃ g, sect = [g] ∧ g.type = .__classical_gate__
            ∧ g.name ∈ ["add", "sub", "and", "or", "not", "xor", "ldi", "nop", "cmp"])
          ∨ ((∃ first rest, sect = first :: rest ∧ first.type ≠ .__classical_gate__)
            ∧ (∀ g ∈ sect, g.type ≠ .__classical_gate__)
            ∧ (∀ g ∈ sect, g.type ≠ .__nop_gate__ →
                g.operands.length = 1 ∨ g.operands.length = 2))) := by
  unfold section_accepted instruction_accepted classical_opcodes
  constructor
  · rintro (h | ⟨h1, h2⟩)
    · exact Or.inl h
    · exact Or.inr ⟨h1, fun g hg => (h2 g hg).1, fun g hg => (h2 g hg).2⟩
  · rintro (h | ⟨h1, h2, h3⟩)
    · exact Or.inl h
    · exact Or.inr ⟨h1, fun g hg => ⟨h2 g hg, h3 g hg⟩⟩

theorem bundles2cccode_iff (platform : quantum_platform) (bundles : List bundle_t)
    (hne : ∀ b ∈ bundles, [] ∉ b.parallel_sections) :
    (∃ text, bundles2cccode bundles platform = .ok text)
      ↔ ∀ b ∈ bundles, ∀ sect ∈ b.parallel_sections, section_accepted sect := by
  rw [← bundles_loop_iff platform bundles hne codegen_init]
  unfold bundles2cccode
  cases bundles_loop platform bundles codegen_init with
  | error e =>
    constructor
    · rintro ⟨text, h⟩
      cases h
    · rintro ⟨st, h⟩
      cases h
  | ok st => exact ⟨fun _ => ⟨_, rfl⟩, fun _ => ⟨_, rfl⟩⟩

/-- C22: for every bundle sequence whose parallel sections are all non-empty,
generation succeeds if and only if every section of every bundle either is a
single classical instruction with an opcode of the supported set, or starts with
a non-classical instruction, contains no classical instruction, and each of its
instructions that is not a no-op has exactly 1 or 2 operands. The condition is
one on the sections taken one by one: two such bundle sequences that hold the
same sections, however these are spread over bundles and ordered, succeed or
fail together. -/
theorem generate_success_iff (platform : quantum_platform) (bundles : List bundle_t)
    (hne : ∀ b ∈ bundles, [] ∉ b.parallel_sections) :
    ((∃ text, bundles2cccode bundles platform = .ok text)
      ↔ ∀ b ∈ bundles, ∀ sect ∈ b.parallel_sections,
          (∃ g, sect = [g] ∧ g.type = .__classical_gate__
            ∧ g.name ∈ ["add", "sub", "and", "or", "not", "xor", "ldi", "nop", "cmp"])
          ∨ ((∃ first rest, sect = first :: rest ∧ first.type ≠ .__classical_gate__)
            ∧ (∀ g ∈ sect, g.type ≠ .__classical_gate__)
            ∧ (∀ g ∈ sect, g.type ≠ .__nop_gate__ →
                g.operands.length = 1 ∨ g.operands.length = 2)))
    ∧ ∀ bundles' : List bundle_t, (∀ b ∈ bundles', [] ∉ b.parallel_sections) →
        (∀ sect, (∃ b ∈ bundles, sect ∈ b.parallel_sections)
          ↔ (∃ b ∈ bundles', sect ∈ b.parallel_sections)) →
        ((∃ text, bundles2cccode bundles platform = .ok text)
          ↔ (∃ text, bundles2cccode bundles' platform = .ok text)) := by
  constructor
  · rw [bundles2cccode_iff platform bundles hne]
    constructor
    · intro h b hb sect hsect
      exact (section_accepted_iff sect).mp (h b hb sect hsect)
    · intro h b hb sect hsect
      exact (section_accepted_iff sect).mpr (h b hb sect hsect)
  · intro bundles' hne' hsame
    rw [bundles2cccode_iff platform bundles hne, bundles2cccode_iff platform bundles' hne']
    constructor
    · intro h b hb sect hsect
      obtain ⟨b0, hb0, hs0⟩ := (hsame sect).mpr ⟨b, hb, hsect⟩
      exact h b0 hb0 sect hs0
    · intro h b hb sect hsect
      obtain ⟨b0, hb0, hs0⟩ := (hsame sect).mp ⟨b, hb, hsect⟩
      exact h b0 hb0 sect hs0

/-- C22, at a bundle with three sections, a quantum section of a no-op and two
gates, the classical `add` alone, and the gate `cz`: generation succeeds, and
every section meets the condition. -/
theorem generate_success_iff_witness :
    bundles2cccode
        [{ start_cycle := 0, duration_in_cycles := 1,
           parallel_sections :=
             [[{ name := "nop", operands := [], creg_operands := [],
                 type := .__nop_gate__, imm_value := 0 },
               { name := "x", operands := [0], creg_operands := [],
                 type := .__custom_gate__, imm_value := 0 }],
              [{ name := "add", operands := [0, 1, 2], creg_operands := [],
                 type := .__classical_gate__, imm_value := 0 }],
              [{ name := "cz", operands := [1, 2], creg_operands := [],
                 type := .__custom_gate__, imm_value := 0 }]] }]
        { instruction_settings := fun _ => none,
          get_instruction_name := fun n => n, hardware_settings := fun _ => none }
      = .ok "nop# x 0   \nadd r0, r1, r2# cz 1,2\n\n"
    ∧ ∀ b ∈ [({ start_cycle := 0, duration_in_cycles := 1,
                parallel_sections :=
                  [[{ name := "nop", operands := [], creg_operands := [],
                      type := .__nop_gate__, imm_value := 0 },
                    { name := "x", operands := [0], creg_operands := [],
                      type := .__custom_gate__, imm_value := 0 }],
                   [{ name := "add", operands := [0, 1, 2], creg_operands := [],
                      type := .__classical_gate__, imm_value := 0 }],
                   [{ name := "cz", operands := [1, 2], creg_operands := [],
                      type := .__custom_gate__, imm_value := 0 }]] } : bundle_t)],
        ∀ sect ∈ b.parallel_sections,
          (∃ g, sect = [g] ∧ g.type = .__classical_gate__
            ∧ g.name ∈ ["add", "sub", "and", "or", "not", "xor", "ldi", "nop", "cmp"])
          ∨ ((∃ first rest, sect = first :: rest ∧ first.type ≠ .__classical_gate__)
            ∧ (∀ g ∈ sect, g.type ≠ .__classical_gate__)
            ∧ (∀ g ∈ sect, g.type ≠ .__nop_gate__ →
                g.operands.length = 1 ∨ g.operands.length = 2)) :=
  ⟨rfl,
   (generate_success_iff
      { instruction_settings := fun _ => none,
        get_instruction_name := fun n => n, hardware_settings := fun _ => none }
      [{ start_cycle := 0, duration_in_cycles := 1,
         parallel_sections :=
           [[{ name := "nop", operands := [], creg_operands := [],
               type := .__nop_gate__, imm_value := 0 },
             { name := "x", operands := [0], creg_operands := [],
               type := .__custom_gate__, imm_value := 0 }],
            [{ name := "add", operands := [0, 1, 2], creg_operands := [],
               type := .__classical_gate__, imm_value := 0 }],
            [{ name := "cz", operands := [1, 2], creg_operands := [],
               type := .__custom_gate__, imm_value := 0 }]] }]
      (by decide)).1.mp ⟨_, rfl⟩⟩


/-! ## Decomposer and code generator: the synthesized moves -/

theorem forall₂_of_mem_right {α β : Type} {R : α → β → Prop} {l₁ : List α} {l₂ : List β}
    (h : List.Forall₂ R l₁ l₂) (b : β) (hb : b ∈ l₂) : ∃ a ∈ l₁, R a b := by
  induction h with
  | nil => cases hb
  | cons hhead _ ih =>
    rcases List.mem_cons.mp hb with hb | hb
    · exact ⟨_, List.mem_cons_self _ _, hb ▸ hhead⟩
    · obtain ⟨a, ha, hR⟩ := ih hb
      exact ⟨a, List.mem_cons_of_mem _ ha, hR⟩

theorem decompose_instruction_classical (d : List gate) (ins : gate)
    (platform : quantum_platform) (hc : ins.type = .__classical_gate__) :
    decompose_instruction d ins platform = .ok d := by
  simp [decompose_instruction, hc]

theorem decompose_instructions_filter (platform : quantum_platform) (ckt : List gate) :
    ∀ d, decompose_instructions
        (ckt.filter fun ins => decide (ins.type ≠ .__classical_gate__)) d platform
      = decompose_instructions ckt d platform := by
  induction ckt with
  | nil =>
    intro d
    rfl
  | cons ins ckt ih =>
    intro d
    by_cases hc : ins.type = .__classical_gate__
    · rw [List.filter_cons_of_neg (by simpa using hc), ih d, decompose_instructions,
        decompose_instruction_classical d ins platform hc]
    · rw [List.filter_cons_of_pos (by simpa using hc), decompose_instructions,
        decompose_instructions]
      cases decompose_instruction d ins platform with
      | error e => rfl
      | ok d' => exact ih d'

theorem section2cccode_error_of_classical (platform : quantum_platform) (ssinst : String)
    (sect : List gate) (g : gate) (hg : g ∈ sect) (hclassical : g.type = .__classical_gate__)
    (hname : g.name ∉ classical_opcodes) :
    ∃ e, section2cccode platform ssinst sect = .error e := by
  have hne : sect ≠ [] := List.ne_nil_of_mem hg
  have hnot : ¬ section_accepted sect := by
    rintro (⟨g', hsect, _, hm⟩ | ⟨_, hall⟩)
    · rw [hsect, List.mem_singleton] at hg
      rw [hg] at hname
      exact hname hm
    · exact (hall g hg).1 hclassical
  cases hstep : section2cccode platform ssinst sect with
  | error e => exact ⟨e, rfl⟩
  | ok out => exact absurd ((section2cccode_iff platform sect hne ssinst).mp ⟨out, hstep⟩) hnot

theorem bundles2cccode_error_of_classical (platform : quantum_platform)
    (bundles : List bundle_t) (b : bundle_t) (sect : List gate) (g : gate)
    (hb : b ∈ bundles) (hsect : sect ∈ b.parallel_sections) (hg : g ∈ sect)
    (hclassical : g.type = .__classical_gate__) (hname : g.name ∉ classical_opcodes) :
    ∃ e, bundles2cccode bundles platform = .error e := by
  have hbundle : ∀ st, ∃ e, bundle2cccode platform st b = .error e := by
    intro st
    obtain ⟨e, he⟩ := parallel_sections2cccode_error platform sect
      (fun ss => section2cccode_error_of_classical platform ss sect g hg hclassical hname)
      b.parallel_sections hsect ""
    exact ⟨e, by simp only [bundle2cccode, he]⟩
  obtain ⟨e, he⟩ := bundles_loop_error platform b hbundle bundles hb codegen_init
  exact ⟨e, by simp only [bundles2cccode, he]⟩

/-- C21: for every input sequence on which decompose succeeds, the classical
input instructions are omitted: the output is the output for the sequence
without them, and a classical instruction adds nothing whatever the platform
holds, so no metadata is looked up for it. Every classical instruction of the
output is a move named `fmr`, synthesized from a measurement of the input with
the operand list `[R, Q]`, and the encoder fails on it; hence generation fails
for every bundle sequence in which a bundle holds such an instruction. -/
theorem classical_output_not_encodable (platform : quantum_platform) (ckt out : List gate)
    (hrun : decompose_instructions ckt [] platform = .ok out) :
    decompose_instructions
        (ckt.filter fun ins => decide (ins.type ≠ .__classical_gate__)) [] platform = .ok out
    ∧ (∀ (ins : gate) (d : List gate) (platform' : quantum_platform),
        ins.type = .__classical_gate__ → decompose_instructions [ins] d platform' = .ok d)
    ∧ (∀ g ∈ out, g.type = .__classical_gate__ →
        g.name = "fmr"
        ∧ (∃ m ∈ ckt, ∃ R Q rs qs, m.type = .__custom_gate__
            ∧ m.creg_operands = R :: rs ∧ m.operands = Q :: qs
            ∧ g = { name := "fmr", operands := [R, Q], creg_operands := [],
                    type := .__classical_gate__, imm_value := 0 })
        ∧ ∃ e, classical_instruction2cccode g = .error e)
    ∧ (∀ (platform' : quantum_platform) (bundles : List bundle_t),
        (∃ b ∈ bundles, ∃ sect ∈ b.parallel_sections, ∃ g ∈ sect,
          g ∈ out ∧ g.type = .__classical_gate__) →
        ∃ e, bundles2cccode bundles platform' = .error e) := by
  have hmove : ∀ g ∈ out, g.type = .__classical_gate__ →
      ∃ m ∈ ckt, ∃ R Q rs qs, m.type = .__custom_gate__
        ∧ m.creg_operands = R :: rs ∧ m.operands = Q :: qs ∧ g = fmr_instruction R Q := by
    intro g hg hclassical
    rcases decompose_instructions_parts platform ckt with
      ⟨parts, hp, hall, _⟩ | ⟨msg, herr, _⟩ | ⟨what, herr, _⟩
    · rw [hp] at hrun
      have hout : out = parts.flatten := by simpa using (Except.ok.inj hrun).symm
      rw [hout, List.mem_flatten] at hg
      obtain ⟨part, hpart, hgpart⟩ := hg
      obtain ⟨m, hm, _, hshape⟩ := forall₂_of_mem_right hall part hpart
      rcases hshape with ⟨_, h⟩ | ⟨hmc, h⟩ | ⟨hcustom, R, Q, rs, qs, hR, hQ, h⟩
      · rw [h] at hgpart
        cases hgpart
      · rw [h, List.mem_singleton] at hgpart
        rw [hgpart] at hclassical
        exact absurd hclassical hmc
      · rw [h] at hgpart
        rcases List.mem_cons.mp hgpart with hgm | hgm
        · rw [hgm] at hclassical
          have hcc : m.type = .__classical_gate__ := hclassical
          rw [hcustom] at hcc
          cases hcc
        · exact ⟨m, hm, R, Q, rs, qs, hcustom, hR, hQ, List.mem_singleton.mp hgm⟩
    · rw [herr] at hrun
      cases hrun
    · rw [herr] at hrun
      cases hrun
  have hfmr : ∀ R Q, (fmr_instruction R Q).name ∉ classical_opcodes := by
    intro R Q
    show "fmr" ∉ classical_opcodes
    decide
  refine ⟨?_, ?_, ?_, ?_⟩
  · rw [decompose_instructions_filter, hrun]
  · intro ins d platform' hc
    rw [decompose_instructions, decompose_instruction_classical d ins platform' hc]
    rfl
  · intro g hg hclassical
    obtain ⟨m, hm, R, Q, rs, qs, hcustom, hR, hQ, hgeq⟩ := hmove g hg hclassical
    refine ⟨by rw [hgeq]; rfl, ⟨m, hm, R, Q, rs, qs, hcustom, hR, hQ, hgeq⟩, ?_⟩
    rw [hgeq]
    exact ⟨_, classical_instruction2cccode_error _ (hfmr R Q)⟩
  · rintro platform' bundles ⟨b, hb, sect, hsect, g, hg, hgout, hclassical⟩
    obtain ⟨m, _, R, Q, _, _, _, _, _, hgeq⟩ := hmove g hgout hclassical
    exact bundles2cccode_error_of_classical platform' bundles b sect g hb hsect hg hclassical
      (by rw [hgeq]; exact hfmr R Q)

/-- C21, at the sequence of a classical `add` and a measurement
`measure q2 -> r5`: the output is the measurement and its move `fmr [5, 2]`, the
`add` is gone, and generation fails on the bundle that holds the move. -/
theorem classical_output_not_encodable_witness :
    decompose_instructions
        [{ name := "add", operands := [0, 1, 2], creg_operands := [],
           type := .__classical_gate__, imm_value := 0 },
         { name := "measure", operands := [2], creg_operands := [5],
           type := .__custom_gate__, imm_value := 0 }] []
        { instruction_settings := fun n => if n = "measure" then some "readout" else none,
          get_instruction_name := fun n => n, hardware_settings := fun _ => none }
      = .ok [{ name := "measure", operands := [2], creg_operands := [5],
               type := .__custom_gate__, imm_value := 0 },
             { name := "fmr", operands := [5, 2], creg_operands := [],
               type := .__classical_gate__, imm_value := 0 }]
    ∧ ∃ e, bundles2cccode
        [{ start_cycle := 0, duration_in_cycles := 1,
           parallel_sections :=
             [[{ name := "fmr", operands := [5, 2], creg_operands := [],
                 type := .__classical_gate__, imm_value := 0 }]] }]
        { instruction_settings := fun n => if n = "measure" then some "readout" else none,
          get_instruction_name := fun n => n, hardware_settings := fun _ => none }
      = .error e :=
  ⟨rfl,
   (classical_output_not_encodable
      { instruction_settings := fun n => if n = "measure" then some "readout" else none,
        get_instruction_name := fun n => n, hardware_settings := fun _ => none }
      [{ name := "add", operands := [0, 1, 2], creg_operands := [],
         type := .__classical_gate__, imm_value := 0 },
       { name := "measure", operands := [2], creg_operands := [5],
         type := .__custom_gate__, imm_value := 0 }]
      [{ name := "measure", operands := [2], creg_operands := [5],
         type := .__custom_gate__, imm_value := 0 },
       { name := "fmr", operands := [5, 2], creg_operands := [],
         type := .__classical_gate__, imm_value := 0 }]
      rfl).2.2.2 _ _
     ⟨_, List.mem_singleton.mpr rfl, _, List.mem_singleton.mpr rfl, _,
      List.mem_singleton.mpr rfl, by decide, rfl⟩⟩

/-! ## Decomposer: idempotence -/

theorem toLower_idem (c : Char) : c.toLower.toLower = c.toLower := by
  unfold Char.toLower
  by_cases h : c.toNat ≥ 65 ∧ c.toNat ≤ 90
  · simp only [h, and_self, if_true]
    obtain ⟨h1, h2⟩ := h
    have hlow : ∀ n, 65 ≤ n → n ≤ 90 →
        ¬ ((Char.ofNat (n + 32)).toNat ≥ 65 ∧ (Char.ofNat (n + 32)).toNat ≤ 90) := by
      intro n hn1 hn2
      interval_cases n <;> decide
    rw [if_neg (hlow _ h1 h2)]
  · simp only [h, if_false]

theorem lower_case_idem (s : String) : lower_case (lower_case s) = lower_case s := by
  simp only [lower_case, List.map_map]
  congr 1
  apply List.map_congr_left
  intro c _
  exact toLower_idem c

/-- The decomposer treats an instruction whose name it has lower-cased as it
treated the instruction. -/
theorem decompose_instruction_lower (d : List gate) (ins : gate)
    (platform : quantum_platform) :
    decompose_instruction d { ins with name := lower_case ins.name } platform
      = decompose_instruction d ins platform := by
  simp only [decompose_instruction, lower_case_idem]

/-- A part that the decomposer has written is written again unchanged when the
decomposer is applied to it. -/
theorem decompose_instructions_part (platform : quantum_platform) (ins : gate)
    (part : List gate)
    (hstep : ∀ d, decompose_instruction d ins platform = .ok (d ++ part))
    (hshape : decomposed_part ins part) :
    ∀ d, decompose_instructions part d platform = .ok (d ++ part) := by
  intro d
  rcases hshape with ⟨_, h⟩ | ⟨_, h⟩ | ⟨_, R, Q, rs, qs, _, _, h⟩
  · rw [h]
    simp [decompose_instructions]
  · have h1 : decompose_instruction d { ins with name := lower_case ins.name } platform
        = .ok (d ++ part) := by
      rw [decompose_instruction_lower, hstep]
    rw [h] at h1 ⊢
    rw [decompose_instructions, h1]
    rfl
  · have h1 : decompose_instruction d { ins with name := lower_case ins.name } platform
        = .ok (d ++ part) := by
      rw [decompose_instruction_lower, hstep]
    rw [h] at h1 ⊢
    rw [decompose_instructions, h1]
    simp only
    rw [decompose_instructions, decompose_instruction_classical _ _ platform rfl]
    rfl

theorem decompose_instructions_flatten (platform : quantum_platform) (ckt : List gate)
    (parts : List (List gate))
    (hall : List.Forall₂ (fun ins part =>
        (∀ d, decompose_instruction d ins platform = .ok (d ++ part))
        ∧ decomposed_part ins part) ckt parts) :
    ∀ d, decompose_instructions parts.flatten d platform = .ok (d ++ parts.flatten) := by
  induction hall with
  | nil =>
    intro d
    simp [decompose_instructions]
  | cons hhead _ ih =>
    intro d
    rw [List.flatten_cons, decompose_instructions_append,
      decompose_instructions_part platform _ _ hhead.1 hhead.2 d]
    simp only
    rw [ih, List.append_assoc]

/-- C23: for every input sequence and platform on which decompose succeeds,
applying decompose to its own output succeeds and returns that output. -/
theorem decomposition_idempotent (platform : quantum_platform) (ckt out : List gate)
    (hrun : decompose_instructions ckt [] platform = .ok out) :
    decompose_instructions out [] platform = .ok out := by
  rcases decompose_instructions_parts platform ckt with
    ⟨parts, hp, hall, _⟩ | ⟨msg, herr, _⟩ | ⟨what, herr, _⟩
  · rw [hp] at hrun
    have hout : out = parts.flatten := by simpa using (Except.ok.inj hrun).symm
    rw [hout, decompose_instructions_flatten platform ckt parts hall]
    rfl
  · rw [herr] at hrun
    cases hrun
  · rw [herr] at hrun
    cases hrun

/-- C23, at the sequence `H q1`, `Measure q2 -> r5`, classical `add`, `WAIT`:
the output, with lower-cased names and the move `fmr [5, 2]` behind the
measurement, is returned unchanged by a second application. -/
theorem decomposition_idempotent_witness :
    decompose_instructions
        [{ name := "H", operands := [1], creg_operands := [],
           type := .__custom_gate__, imm_value := 0 },
         { name := "Measure", operands := [2], creg_operands := [5],
           type := .__custom_gate__, imm_value := 0 },
         { name := "add", operands := [0, 1, 2], creg_operands := [],
           type := .__classical_gate__, imm_value := 0 },
         { name := "WAIT", operands := [1, 2], creg_operands := [],
           type := .__wait_gate__, imm_value := 0 }] []
        { instruction_settings := fun n =>
            if n = "measure" then some "readout" else if n = "h" then some "mw" else none,
          get_instruction_name := fun n => n, hardware_settings := fun _ => none }
      = .ok [{ name := "h", operands := [1], creg_operands := [],
               type := .__custom_gate__, imm_value := 0 },
             { name := "measure", operands := [2], creg_operands := [5],
               type := .__custom_gate__, imm_value := 0 },
             { name := "fmr", operands := [5, 2], creg_operands := [],
               type := .__classical_gate__, imm_value := 0 },
             { name := "wait", operands := [1, 2], creg_operands := [],
               type := .__wait_gate__, imm_value := 0 }]
    ∧ decompose_instructions
        [{ name := "h", operands := [1], creg_operands := [],
           type := .__custom_gate__, imm_value := 0 },
         { name := "measure", operands := [2], creg_operands := [5],
           type := .__custom_gate__, imm_value := 0 },
         { name := "fmr", operands := [5, 2], creg_operands := [],
           type := .__classical_gate__, imm_value := 0 },
         { name := "wait", operands := [1, 2], creg_operands := [],
           type := .__wait_gate__, imm_value := 0 }] []
        { instruction_settings := fun n =>
            if n = "measure" then some "readout" else if n = "h" then some "mw" else none,
          get_instruction_name := fun n => n, hardware_settings := fun _ => none }
      = .ok [{ name := "h", operands := [1], creg_operands := [],
               type := .__custom_gate__, imm_value := 0 },
             { name := "measure", operands := [2], creg_operands := [5],
               type := .__custom_gate__, imm_value := 0 },
             { name := "fmr", operands := [5, 2], creg_operands := [],
               type := .__classical_gate__, imm_value := 0 },
             { name := "wait", operands := [1, 2], creg_operands := [],
               type := .__wait_gate__, imm_value := 0 }] :=
  ⟨rfl,
   decomposition_idempotent
    { instruction_settings := fun n =>
        if n = "measure" then some "readout" else if n = "h" then some "mw" else none,
      get_instruction_name := fun n => n, hardware_settings := fun _ => none }
    [{ name := "H", operands := [1], creg_operands := [],
       type := .__custom_gate__, imm_value := 0 },
     { name := "Measure", operands := [2], creg_operands := [5],
       type := .__custom_gate__, imm_value := 0 },
     { name := "add", operands := [0, 1, 2], creg_operands := [],
       type := .__classical_gate__, imm_value := 0 },
     { name := "WAIT", operands := [1, 2], creg_operands := [],
       type := .__wait_gate__, imm_value := 0 }]
    _ rfl⟩


/-! ## Control-flow frames: the label column -/

theorem spaces_zero : spaces 0 = "" := rfl

theorem length_spaces (n : Nat) : (spaces n).length = n := by
  simp [spaces, String.length]

theorem get_prologue_for_start (k : quantum_kernel) (L : String)
    (hrole : k.type = .FOR_START) (hlabel : kernelLabel k = .ok L) :
    get_prologue k
      = .ok ("# FOR_START(" ++ dec k.iterations ++ ")" ++ "\n"
          ++ (L ++ ":" ++ spaces (8 - (L ++ ":").length)
              ++ ("move" ++ spaces 4
                ++ (dec k.iterations ++ ",R63"
                    ++ spaces (16 - (dec k.iterations ++ ",R63").length))
                ++ "# R63 is the 'for loop counter'" ++ "\n"))) := by
  simp only [get_prologue, hrole, hlabel, verbose, if_true, emit_ops, setw,
    loop_counter_comment, endl]
  congr 1
  have h4 : spaces (8 - "move".length) = spaces 4 := by decide
  rw [h4]
  simp only [String.append_assoc, String.empty_append]

/-- C24: for a for-start kernel whose derived label `L` has at most 6
characters, the labelled line of the prologue starts with `L:` followed by
spaces up to 8 characters (at least one), so that `move` begins at column 8; for
a label of 7 or more characters the line starts with `L:` directly followed by
`move`, without a space between the colon and the mnemonic. -/
theorem label_column (k : quantum_kernel) (L : String)
    (hrole : k.type = .FOR_START) (hlabel : kernelLabel k = .ok L) :
    (L.length ≤ 6 →
      get_prologue k
        = .ok ("# FOR_START(" ++ dec k.iterations ++ ")" ++ "\n"
            ++ (L ++ ":" ++ spaces (7 - L.length)
                ++ ("move" ++ spaces 4
                  ++ (dec k.iterations ++ ",R63"
                      ++ spaces (16 - (dec k.iterations ++ ",R63").length))
                  ++ "# R63 is the 'for loop counter'" ++ "\n")))
      ∧ (L ++ ":" ++ spaces (7 - L.length)).length = 8
      ∧ 1 ≤ 7 - L.length)
    ∧ (7 ≤ L.length →
      get_prologue k
        = .ok ("# FOR_START(" ++ dec k.iterations ++ ")" ++ "\n"
            ++ (L ++ ":"
                ++ ("move" ++ spaces 4
                  ++ (dec k.iterations ++ ",R63"
                      ++ spaces (16 - (dec k.iterations ++ ",R63").length))
                  ++ "# R63 is the 'for loop counter'" ++ "\n")))) := by
  have hlen : (L ++ ":").length = L.length + 1 := by
    rw [String.length_append]
    rfl
  constructor
  · intro h6
    have hpad : 8 - (L ++ ":").length = 7 - L.length := by omega
    refine ⟨?_, ?_, by omega⟩
    · rw [get_prologue_for_start k L hrole hlabel, hpad]
    · rw [String.length_append, hlen, length_spaces]
      omega
  · intro h7
    have hpad : 8 - (L ++ ":").length = 0 := by omega
    rw [get_prologue_for_start k L hrole hlabel, hpad, spaces_zero, String.append_empty]

/-- C24, at the kernel `sp1_for1_start` (label `sp1`, padded with four spaces)
and at the kernel `program1_for1_start` (label `program1`, eight characters, no
space before `move`). -/
theorem label_column_witness :
    get_prologue
        { name := "sp1_for1_start", type := .FOR_START, iterations := 10,
          br_condition := { op0 := 0, op1 := 0, operation_name := "" },
          c := [], creg_count := 0 }
      = .ok ("# FOR_START(10)\n"
          ++ "sp1:    move    10,R63          # R63 is the 'for loop counter'\n")
    ∧ get_prologue
        { name := "program1_for1_start", type := .FOR_START, iterations := 10,
          br_condition := { op0 := 0, op1 := 0, operation_name := "" },
          c := [], creg_count := 0 }
      = .ok ("# FOR_START(10)\n"
          ++ "program1:move    10,R63          # R63 is the 'for loop counter'\n") :=
  ⟨((label_column
        { name := "sp1_for1_start", type := .FOR_START, iterations := 10,
          br_condition := { op0 := 0, op1 := 0, operation_name := "" },
          c := [], creg_count := 0 }
        "sp1" rfl rfl).1 (by decide)).1.trans (by decide),
   ((label_column
        { name := "program1_for1_start", type := .FOR_START, iterations := 10,
          br_condition := { op0 := 0, op1 := 0, operation_name := "" },
          c := [], creg_count := 0 }
        "program1" rfl rfl).2 (by decide)).trans (by decide)⟩

end arch
end ql
